import Mathlib

/-!
# Review Guesser: tag-indexed random selection

A shallow embedding of `src/src/nextGame.js` (the selection engine) and
`src/dataPreprocess.js` (the index builder).

Conventions of the embedding

* A JavaScript number that holds an integer is modelled by the integer it stands for,
  rounded as binary64 rounds it (`roundSignificand`); `NaN` and the infinities, which
  `parseInt` can return, are separate constructors of `JsNum`.
* `Math.random()` is a binary64 draw of [0,1) supplied by the environment
  (`Draw64`), and `randomIndexF64` is `Math.floor(r * len)` as binary64 computes it;
  `randomIndex` and `pickRandomId` are the same expressions in exact arithmetic, on a
  rational draw.
* An `async` function is run to completion: every `await` is answered by the
  environment (`World`), and a thrown exception or rejected promise is the
  `Except.error` result.
* Ordinary objects (`{}` and the result of JSON decoding) inherit from
  `Object.prototype`; `Object.create(null)` objects do not.
-/

namespace ReviewGuesser

/-! ## JavaScript values -/

/-- Faults raised by the JavaScript runtime. -/
inductive JsError
  | typeError
  deriving DecidableEq, Repr

/-- Names of the properties every ordinary object inherits from `Object.prototype`. -/
def objectPrototypeKeys : List String :=
  ["constructor", "__defineGetter__", "__defineSetter__", "hasOwnProperty",
   "__lookupGetter__", "__lookupSetter__", "isPrototypeOf", "propertyIsEnumerable",
   "toString", "valueOf", "__proto__", "toLocaleString"]

/-- Own properties, in insertion order, of an ordinary object whose values are arrays. -/
abbrev JsObject (α : Type) := List (String × List α)

/-- Result of the property read `obj[key]` on an ordinary object. -/
inductive PropValue (α : Type)
  | undefined
  | array (xs : List α)
  | inherited
  deriving DecidableEq, Repr

/-- Property read `obj[key]`: an own property wins, otherwise the lookup continues on
`Object.prototype`, whose members are functions (and, for `__proto__`, the prototype
object itself): truthy values that are neither iterable nor have a `push` method. -/
def getProp {α : Type} (obj : JsObject α) (key : String) : PropValue α :=
  match obj.lookup key with
  | some xs => .array xs
  | none => if key ∈ objectPrototypeKeys then .inherited else .undefined

/-- Number of low bits of `p` that a 53-bit significand cannot hold; the first argument
bounds the recursion. -/
def excessBits : Nat → Nat → Nat
  | 0, _ => 0
  | fuel + 1, p => if p < 2 ^ 53 then 0 else excessBits fuel (p / 2) + 1

/-- The binary64 number nearest to the natural number `p`, as a natural number: `p` is
rounded to 53 significant bits, ties going to the even significand. -/
def roundSignificand (p : Nat) : Nat :=
  if p < 2 ^ 53 then p
  else
    let k := excessBits p p
    let q := p / 2 ^ k
    let rem := p % 2 ^ k
    let half := 2 ^ (k - 1)
    if rem < half then q * 2 ^ k
    else if rem = half ∧ q % 2 = 0 then q * 2 ^ k
    else (q + 1) * 2 ^ k

/-- Numbers a binary64 significand can hold exactly: at most 53 significant bits. -/
def Representable (a : Nat) : Prop := ∃ c t : Nat, c < 2 ^ 53 ∧ a = c * 2 ^ t

/-- Value returned by `pickRandomId`: `null`, `undefined` (an out-of-range element
read), or an id. -/
inductive Pick
  | null
  | undefined
  | id (n : Int)
  deriving DecidableEq, Repr

/-! ## Selection engine (`src/src/nextGame.js`) -/

/-- The batch files of the "Smart Random" strategy. -/
def BATCH_FILES : List String :=
  ["data/Batch_1.csv", "data/Batch_2.csv", "data/Batch_3.csv",
   "data/Batch_4.csv", "data/Batch_5.csv", "data/Batch_6.csv"]

/-- Path read by `getReleasedAppIds`. -/
def releasedPath : String := "data/released_appids.csv"

/-- How a `fetch` of a CSV ends: the request rejects, or a response arrives with its
`ok` flag and a body (`none` when reading the text rejects). -/
inductive FetchOutcome
  | networkError
  | response (ok : Bool) (body : Option String)
  deriving DecidableEq, Repr

/-- White space and line terminators removed by `String.prototype.trim`. -/
def isJsWhitespace (c : Char) : Bool :=
  c.val.toNat ∈ [9, 10, 11, 12, 13, 32, 160, 5760, 8192, 8193, 8194, 8195, 8196, 8197,
    8198, 8199, 8200, 8201, 8202, 8232, 8233, 8239, 8287, 12288, 65279]

/-- The call `s.trim()`. -/
def trimChars (cs : List Char) : List Char :=
  ((cs.dropWhile isJsWhitespace).reverse.dropWhile isJsWhitespace).reverse

/-- The call `text.split(/\r?\n/)`. -/
def splitLines : List Char → List (List Char)
  | [] => [[]]
  | '\r' :: '\n' :: rest => [] :: splitLines rest
  | '\n' :: rest => [] :: splitLines rest
  | c :: rest =>
    match splitLines rest with
    | [] => [[c]]
    | l :: ls => (c :: l) :: ls

/-- The test `/^\d+$/.test(s)`. -/
def isDigitLine (cs : List Char) : Bool :=
  !cs.isEmpty && cs.all Char.isDigit

/-- The call `parseInt(s, 10)` on a string of decimal digits: the binary64 number
nearest to the integer written. A line whose value rounds to `2^1024` or more, which
the code reads as `Infinity`, is kept here as that integer. -/
def parseDecimal (cs : List Char) : Int :=
  (roundSignificand (cs.foldl (fun acc c => acc * 10 + (c.toNat - 48)) 0) : Nat)

/-- The second `.then` of `loadCsvIds`: text to id list. -/
def decodeCsvText (text : String) : List Int :=
  (((splitLines text.toList).map trimChars).filter isDigitLine).map parseDecimal

/-- Value the promise chain of `loadCsvIds` is fulfilled with: the decoded ids, or
`[]` from the `.catch` handler on any failure. -/
def csvResult : FetchOutcome → List Int
  | .networkError => []
  | .response false _ => []
  | .response true none => []
  | .response true (some text) => decodeCsvText text

/-- Mutable state of the engine module. `CSV_CACHE` maps a path to a promise (an
index into `promises`, whose entry is `none` while the promise is pending);
`fetchLog` records the CSV fetches issued so far. -/
structure Engine where
  CSV_CACHE : List (String × Nat)
  promises : List (Option (List Int))
  fetchLog : List String
  TAGS_INDEX : Option (JsObject Int)
  tagFetches : Nat
  SELECTED_TAGS : List String
  randomCalls : Nat
  deriving DecidableEq, Repr

/-- A binary64 number in [0,1): the value `m / 2^e` with a significand `m` of at most
53 bits; `valid` states the range. -/
structure Draw64 where
  m : Nat
  e : Nat
  deriving DecidableEq, Repr

/-- The pair denotes a binary64 number of [0,1). -/
def Draw64.valid (d : Draw64) : Prop :=
  d.m < 2 ^ 53 ∧ d.m < 2 ^ d.e ∧ d.e ≤ 1074

instance (d : Draw64) : Decidable d.valid := by
  unfold Draw64.valid
  infer_instance

/-- The rational value of a binary64 draw. -/
def Draw64.toRat (d : Draw64) : ℚ := (d.m : ℚ) / 2 ^ d.e

/-- The environment: the outcome of fetching each CSV path (a path is fetched at most
once, see `loadCsvIds`), the outcome of the k-th fetch of `data/tags_index.json`
(`none` on any failure) and the k-th value of `Math.random()`. -/
structure World where
  fetchCsv : String → FetchOutcome
  fetchTags : Nat → Option (JsObject Int)
  random : Nat → Draw64

/-- State of the module right after it is loaded with the given selected tags. -/
def Engine.init (tags : List String) : Engine :=
  { CSV_CACHE := [], promises := [], fetchLog := [], TAGS_INDEX := none,
    tagFetches := 0, SELECTED_TAGS := tags, randomCalls := 0 }

/-- The function `loadCsvIds(relativePath)`: returns the promise. `CSV_CACHE` is an
`Object.create(null)` object, so only own entries are found, and a promise is truthy. -/
def loadCsvIds (st : Engine) (relativePath : String) : Nat × Engine :=
  match st.CSV_CACHE.lookup relativePath with
  | some p => (p, st)
  | none =>
    let p := st.promises.length
    (p, { st with
            CSV_CACHE := st.CSV_CACHE ++ [(relativePath, p)]
            promises := st.promises ++ [none]
            fetchLog := st.fetchLog ++ [relativePath] })

/-- Completion of the fetch behind promise `p`: a pending promise is fulfilled with
`csvResult outcome`; a settled promise never changes. The cache is not touched. -/
def settle (st : Engine) (p : Nat) (outcome : FetchOutcome) : Engine :=
  match st.promises.get? p with
  | some none => { st with promises := st.promises.set p (some (csvResult outcome)) }
  | _ => st

/-- Value of promise `p`, if it is settled. -/
def promiseValue (st : Engine) (p : Nat) : Option (List Int) :=
  (st.promises.get? p).join

/-- The expression `await loadCsvIds(path)`: a pending load is completed by the
environment. -/
def awaitCsvIds (w : World) (st : Engine) (path : String) : List Int × Engine :=
  let r := loadCsvIds st path
  match promiseValue r.2 r.1 with
  | some ids => (ids, r.2)
  | none =>
    let st2 := settle r.2 r.1 (w.fetchCsv path)
    ((promiseValue st2 r.1).getD [], st2)

/-- The function `getReleasedAppIds()`. -/
def getReleasedAppIds (w : World) (st : Engine) : List Int × Engine :=
  awaitCsvIds w st releasedPath

/-- The function `loadTagsIndex()`: the cached index, or a fetch whose success is
cached and whose failure yields `{}` without caching. -/
def loadTagsIndex (w : World) (st : Engine) : JsObject Int × Engine :=
  match st.TAGS_INDEX with
  | some idx => (idx, st)
  | none =>
    match w.fetchTags st.tagFetches with
    | some idx => (idx, { st with TAGS_INDEX := some idx, tagFetches := st.tagFetches + 1 })
    | none => ([], { st with tagFetches := st.tagFetches + 1 })

/-- One step of the `map` in `filterByTags`: `new Set(tagsIndex[tag] || [])`. An
inherited member of `Object.prototype` is truthy and not iterable, so the `Set`
constructor throws a `TypeError`. -/
def tagSetOf (tagsIndex : JsObject Int) (tag : String) : Except JsError (List Int) :=
  match getProp tagsIndex tag with
  | .undefined => .ok []
  | .array xs => .ok xs
  | .inherited => .error .typeError

/-- The expression `Array.from(SELECTED_TAGS).map(tag => new Set(tagsIndex[tag] || []))`. -/
def tagSetsOf (tagsIndex : JsObject Int) : List String → Except JsError (List (List Int))
  | [] => .ok []
  | tag :: rest =>
    match tagSetOf tagsIndex tag with
    | .error e => .error e
    | .ok s =>
      match tagSetsOf tagsIndex rest with
      | .error e => .error e
      | .ok ss => .ok (s :: ss)

/-- The function `filterByTags(appIds)`. -/
def filterByTags (w : World) (st : Engine) (appIds : List Int) :
    Except JsError (List Int × Engine) :=
  if st.SELECTED_TAGS.length = 0 then .ok (appIds, st)
  else
    let r := loadTagsIndex w st
    match tagSetsOf r.1 st.SELECTED_TAGS with
    | .error e => .error e
    | .ok tagSets =>
      if tagSets.length = 0 then .ok (appIds, r.2)
      else .ok (appIds.filter (fun appId => tagSets.all (fun tagSet => tagSet.contains appId)), r.2)

/-- The index `Math.floor(r * len)` in exact arithmetic, for a draw given as a
rational number. -/
def randomIndex (r : ℚ) (len : Nat) : Int := ⌊r * (len : ℚ)⌋

/-- The element read `ids[idx]`. -/
def elementAt (ids : List Int) (idx : Int) : Pick :=
  if 0 ≤ idx then
    match ids.get? idx.toNat with
    | some x => .id x
    | none => .undefined
  else .undefined

/-- The function `pickRandomId(ids)` in exact arithmetic, with the value `r` of its
`Math.random()` call. -/
def pickRandomId (ids : List Int) (r : ℚ) : Pick :=
  if ids.length = 0 then .null
  else elementAt ids (randomIndex r ids.length)

/-- The index `Math.floor(Math.random() * ids.length)` as binary64 computes it: the
product `m * len / 2^e` is rounded to the nearest binary64 number, then floored. The
length of an array is an integer below `2^32`, which binary64 holds exactly. -/
def randomIndexF64 (d : Draw64) (len : Nat) : Nat :=
  roundSignificand (d.m * len) / 2 ^ d.e

/-- The function `pickRandomId(ids)` as the engine runs it, with the binary64 value
`d` of its `Math.random()` call. -/
def pickRandomIdF64 (ids : List Int) (d : Draw64) : Pick :=
  if ids.length = 0 then .null
  else elementAt ids (randomIndexF64 d ids.length : Nat)

/-- The call `Math.random()`: the next draw of the environment. -/
def nextRandom (w : World) (st : Engine) : Draw64 × Engine :=
  (w.random st.randomCalls, { st with randomCalls := st.randomCalls + 1 })

/-- The call `pickRandomId(ids)` inside the engine: `Math.random()` is called only
when the list is not empty. -/
def drawRandomId (w : World) (st : Engine) (ids : List Int) : Pick × Engine :=
  if ids.length = 0 then (.null, st)
  else (pickRandomIdF64 ids (nextRandom w st).1, (nextRandom w st).2)

/-- The function `getPureRandomAppId()`. -/
def getPureRandomAppId (w : World) (st : Engine) : Except JsError (Pick × Engine) :=
  let l := getReleasedAppIds w st
  match filterByTags w l.2 l.1 with
  | .error e => .error e
  | .ok (filtered, st2) =>
    if filtered.length = 0 then .ok (drawRandomId w st2 l.1)
    else .ok (drawRandomId w st2 filtered)

/-- The batch read `BATCH_FILES[Math.floor(Math.random() * BATCH_FILES.length)]`; an
out-of-range read gives `undefined`, which as a path is the string "undefined". -/
def batchFileAt (d : Draw64) : String :=
  (BATCH_FILES.get? (randomIndexF64 d BATCH_FILES.length)).getD "undefined"

/-- The function `getSmartRandomAppId()`. -/
def getSmartRandomAppId (w : World) (st : Engine) : Except JsError (Pick × Engine) :=
  if BATCH_FILES.length = 0 then getPureRandomAppId w st
  else
    let d := nextRandom w st
    let l := awaitCsvIds w d.2 (batchFileAt d.1)
    match filterByTags w l.2 l.1 with
    | .error e => .error e
    | .ok (filtered, st2) =>
      if filtered.length > 0 then .ok (drawRandomId w st2 filtered)
      else getPureRandomAppId w st2

/-- A task of the page that touches the CSV cache between two points of a run: a call
of `loadCsvIds`, or the completion of the fetch behind a promise. -/
inductive Event
  | load (path : String)
  | settle (p : Nat) (outcome : FetchOutcome)
  deriving DecidableEq, Repr

/-- Effect of one event on the engine. -/
def step (st : Engine) : Event → Engine
  | .load path => (loadCsvIds st path).2
  | .settle p outcome => settle st p outcome

/-- Effect of a sequence of events, in order. -/
def run (st : Engine) (evs : List Event) : Engine :=
  evs.foldl step st

/-! ## Index builder (`src/dataPreprocess.js`) -/

/-- A number of the builder: `NaN`, an integer value, or an infinity. -/
inductive JsNum
  | nan
  | num (v : Int)
  | posInf
  | negInf
  deriving DecidableEq, Repr

/-- The binary64 number nearest to an integer: the magnitude is rounded to 53
significant bits, and a magnitude that rounds to `2^1024` or more is an infinity. -/
def JsNum.ofInt (z : Int) : JsNum :=
  if 2 ^ 1024 ≤ roundSignificand z.natAbs then (if 0 ≤ z then .posInf else .negInf)
  else if 0 ≤ z then .num (roundSignificand z.natAbs)
  else .num (-(roundSignificand z.natAbs : Int))

/-- Numeric value of a character as a digit, for radices up to 36. -/
def digitValue (c : Char) : Option Nat :=
  if '0' ≤ c ∧ c ≤ '9' then some (c.toNat - 48)
  else if 'a' ≤ c ∧ c ≤ 'z' then some (c.toNat - 87)
  else if 'A' ≤ c ∧ c ≤ 'Z' then some (c.toNat - 55)
  else none

/-- Value of a character as a digit of radix `R`, if it is one. -/
def radixDigit (R : Nat) (c : Char) : Option Nat :=
  (digitValue c).filter (fun d => d < R)

/-- The call `parseInt(s)` without a radix: leading white space is skipped, a sign is
read, a `0x` or `0X` prefix selects radix 16 (otherwise 10), and the longest run of
digits is converted to the nearest binary64 number, every digit being taken into
account; no digit at all gives `NaN`. The result `-0` is the number 0. -/
def parseInt (s : String) : JsNum :=
  let s1 := s.toList.dropWhile isJsWhitespace
  let signed : Int × List Char :=
    match s1 with
    | '-' :: t => (-1, t)
    | '+' :: t => (1, t)
    | _ => (1, s1)
  let based : Nat × List Char :=
    match signed.2 with
    | '0' :: 'x' :: t => (16, t)
    | '0' :: 'X' :: t => (16, t)
    | _ => (10, signed.2)
  let z := based.2.takeWhile (fun c => (radixDigit based.1 c).isSome)
  if z.isEmpty then .nan
  else .ofInt (signed.1 *
    ((z.foldl (fun acc c => acc * based.1 + (radixDigit based.1 c).getD 0) 0 : Nat) : Int))

/-- A catalog entry as the data handler sees it: `tags` is `none` when `gameData.tags`
is missing or falsy, and otherwise lists the own enumerable keys of that object, as
`Object.keys` returns them. -/
structure Game where
  tags : Option (List String)
  deriving DecidableEq, Repr

/-- Module state of the builder. -/
structure Builder where
  tagIndex : JsObject JsNum
  allAppIds : List JsNum
  gameCount : Nat
  deriving DecidableEq, Repr

/-- State when the script starts: `tagIndex = {}`, `allAppIds = []`, `gameCount = 0`. -/
def Builder.init : Builder :=
  { tagIndex := [], allAppIds := [], gameCount := 0 }

/-- The assignment `obj[key] = v` on an ordinary object, for a key that is not an
accessor of the prototype chain: an own property is overwritten in place, a new one is
appended. -/
def setOwn {α : Type} (obj : JsObject α) (key : String) (v : List α) : JsObject α :=
  match obj.lookup key with
  | some _ => obj.map (fun kv => if kv.1 = key then (kv.1, v) else kv)
  | none => obj ++ [(key, v)]

/-- The statement `if (!tagIndex[tagName]) { tagIndex[tagName] = []; }`. Arrays and
inherited members are truthy. -/
def ensureBucket (tagIndex : JsObject JsNum) (tagName : String) : JsObject JsNum :=
  match getProp tagIndex tagName with
  | .undefined => setOwn tagIndex tagName []
  | _ => tagIndex

/-- The statement `tagIndex[tagName].push(numericAppId)`. An inherited member of
`Object.prototype` has no `push`, and `undefined` has no properties: both throw. -/
def pushBucket (tagIndex : JsObject JsNum) (tagName : String) (numericAppId : JsNum) :
    Except JsError (JsObject JsNum) :=
  match getProp tagIndex tagName with
  | .array xs => .ok (setOwn tagIndex tagName (xs ++ [numericAppId]))
  | .inherited => .error .typeError
  | .undefined => .error .typeError

/-- The loop `for (const tagName of Object.keys(tags)) { ... }`. -/
def indexTags (numericAppId : JsNum) :
    JsObject JsNum → List String → Except JsError (JsObject JsNum)
  | tagIndex, [] => .ok tagIndex
  | tagIndex, tagName :: rest =>
    match pushBucket (ensureBucket tagIndex tagName) tagName numericAppId with
    | .error e => .error e
    | .ok tagIndex2 => indexTags numericAppId tagIndex2 rest

/-- The handler `pipeline.on('data', ...)` for one `(key, value)` pair. -/
def onData (b : Builder) (kv : String × Game) : Except JsError Builder :=
  let numericAppId := parseInt kv.1
  let allAppIds := b.allAppIds ++ [numericAppId]
  match indexTags numericAppId b.tagIndex (kv.2.tags.getD []) with
  | .error e => .error e
  | .ok tagIndex => .ok { tagIndex := tagIndex, allAppIds := allAppIds, gameCount := b.gameCount + 1 }

/-- The stream delivering its pairs to the data handler; an exception thrown by the
handler ends the process. -/
def consume : Builder → List (String × Game) → Except JsError Builder
  | b, [] => .ok b
  | b, kv :: rest =>
    match onData b kv with
    | .error e => .error e
    | .ok b2 => consume b2 rest

/-- The subtraction `a - b` of two numbers, rounded to binary64. -/
def JsNum.sub : JsNum → JsNum → JsNum
  | .num a, .num b => .ofInt (a - b)
  | .num _, .posInf => .negInf
  | .num _, .negInf => .posInf
  | .posInf, .num _ => .posInf
  | .posInf, .negInf => .posInf
  | .negInf, .num _ => .negInf
  | .negInf, .posInf => .negInf
  | _, _ => .nan

/-- The comparator `(a, b) => a - b`. -/
def compareFn (a b : JsNum) : JsNum := a.sub b

/-- The comparison the array sort makes of two elements: the comparator result with
`NaN` read as `+0`; the sort uses its sign only, and an infinite result is given as
1 or -1. -/
def sortCompare (a b : JsNum) : Int :=
  match compareFn a b with
  | .nan => 0
  | .num v => v
  | .posInf => 1
  | .negInf => -1

/-- The call `allAppIds.sort((a, b) => a - b)`. Without a `NaN` in the array the
comparator is consistent and every conforming sort returns the stably sorted array,
computed here by insertion. With a `NaN` the comparator is not consistent and the
resulting order is left to the implementation: the result is `none`. -/
def sortAppIds (xs : List JsNum) : Option (List JsNum) :=
  if JsNum.nan ∈ xs then none
  else some (xs.insertionSort (fun a b => sortCompare a b ≤ 0))

/-- Artifacts written by the handler `pipeline.on('end', ...)`: the tag index and the
sorted id list whose lines make up `released_appids.csv` (`none` where the order of
the lines is left to the implementation, see `sortAppIds`). -/
structure Artifacts where
  tagsIndex : JsObject JsNum
  releasedAppIds : Option (List JsNum)
  deriving DecidableEq, Repr

/-- The whole script on a catalog stream: every pair goes through the data handler,
then the end handler writes the artifacts. -/
def build (stream : List (String × Game)) : Except JsError Artifacts :=
  match consume Builder.init stream with
  | .error e => .error e
  | .ok b => .ok { tagsIndex := b.tagIndex, releasedAppIds := sortAppIds b.allAppIds }

/-- The comparison `a <= b` of two numbers; it is false when either is `NaN`. -/
def JsNum.le : JsNum → JsNum → Prop
  | .num a, .num b => a ≤ b
  | .negInf, .num _ => True
  | .negInf, .negInf => True
  | .negInf, .posInf => True
  | .num _, .posInf => True
  | .posInf, .posInf => True
  | _, _ => False

/-- Tags that `filterByTags` cannot resolve on index `idx`: not an own key, but the
name of a member of `Object.prototype`. -/
def shadowed (idx : JsObject Int) (tag : String) : Prop :=
  idx.lookup tag = none ∧ tag ∈ objectPrototypeKeys

/-! ## Fixtures and specification-level readings -/

/-- A fetch that does not deliver a text: the request rejects, the status is not a
success, or reading the body rejects. -/
def FetchOutcome.failed : FetchOutcome → Bool
  | .networkError => true
  | .response ok body => !ok || body.isNone

/-- The test of the `filter` callback in `filterByTags`, read off the index: the id is
in the list of every selected tag (a tag without an own entry has the empty list). -/
def hasAllTags (idx : JsObject Int) (tags : List String) (appId : Int) : Bool :=
  tags.all (fun t => ((idx.lookup t).getD []).contains appId)

/-- An environment in which every fetch fails. -/
def offlineWorld : World :=
  { fetchCsv := fun _ => .networkError, fetchTags := fun _ => none,
    random := fun _ => { m := 0, e := 0 } }

/-- An environment with a three-line catalog, no batch file, and a two-tag index. -/
def demoWorld : World :=
  { fetchCsv := fun path =>
      if path = releasedPath then .response true (some "10\n20\n30") else .networkError
    fetchTags := fun _ => some [("A", [10, 20]), ("B", [20, 30])]
    random := fun _ => { m := 0, e := 0 } }

/-- Engine state with a loaded tag index and the given selected tags. -/
def Engine.withIndex (idx : JsObject Int) (tags : List String) : Engine :=
  { Engine.init tags with TAGS_INDEX := some idx }



/-- The draw 3752999689475413 / 2^52, just below 5/6. -/
def drawBelowFiveSixths : Draw64 := { m := 3752999689475413, e := 52 }

/-- The own bucket of tag `t` in an index; a tag without an own entry has the empty
bucket. -/
def bucket (idx : JsObject JsNum) (t : String) : List JsNum :=
  (idx.lookup t).getD []

/-! # Theorems -/

/-! ## Random choice -/

lemma randomIndex_nonneg {r : ℚ} (h0 : 0 ≤ r) (len : Nat) : 0 ≤ randomIndex r len := by
  unfold randomIndex
  exact Int.floor_nonneg.mpr (mul_nonneg h0 (Nat.cast_nonneg len))

lemma randomIndex_lt {r : ℚ} (h1 : r < 1) {len : Nat} (hlen : 0 < len) :
    randomIndex r len < len := by
  unfold randomIndex
  rw [Int.floor_lt]
  have hpos : (0 : ℚ) < (len : ℚ) := by exact_mod_cast hlen
  have : r * (len : ℚ) < 1 * (len : ℚ) := mul_lt_mul_of_pos_right h1 hpos
  simpa using this

lemma elementAt_ofNat (ids : List Int) (i : Nat) (hi : i < ids.length) :
    elementAt ids (i : Int) = .id (ids.get ⟨i, hi⟩) := by
  unfold elementAt
  simp [List.getElem?_eq_getElem hi]

lemma randomIndex_eq_iff (r : ℚ) {len : Nat} (hlen : 0 < len) (i : Nat) :
    randomIndex r len = (i : Int) ↔ (i : ℚ) / len ≤ r ∧ r < ((i : ℚ) + 1) / len := by
  have hpos : (0 : ℚ) < (len : ℚ) := by exact_mod_cast hlen
  unfold randomIndex
  rw [Int.floor_eq_iff, div_le_iff₀ hpos, lt_div_iff₀ hpos]
  simp

lemma pickRandomId_of_index (ids : List Int) (r : ℚ) (i : Nat) (hi : i < ids.length)
    (h : randomIndex r ids.length = (i : Int)) :
    pickRandomId ids r = .id (ids.get ⟨i, hi⟩) := by
  unfold pickRandomId
  rw [if_neg (by omega), h, elementAt_ofNat ids i hi]

lemma pickRandomId_mem (ids : List Int) (r : ℚ) (h0 : 0 ≤ r) (h1 : r < 1) (hne : ids ≠ []) :
    ∃ x, pickRandomId ids r = .id x ∧ x ∈ ids := by
  have hlen : 0 < ids.length := List.length_pos.mpr hne
  have hnn := randomIndex_nonneg h0 ids.length
  have hlt := randomIndex_lt h1 hlen
  obtain ⟨i, hi⟩ := Int.eq_ofNat_of_zero_le hnn
  have hi2 : i < ids.length := by omega
  exact ⟨ids.get ⟨i, hi2⟩, pickRandomId_of_index ids r i hi2 hi, List.get_mem _ _ _⟩

/-- In exact arithmetic the draws of [0,1) that read position `i` of a sequence of
length `n` are those of the interval [i/n, (i+1)/n), and there `pickRandomId` returns
the element at position `i`. -/
lemma pickRandomId_exact_interval (ids : List Int) (i : Nat) (hi : i < ids.length) :
    {r : ℚ | 0 ≤ r ∧ r < 1 ∧ randomIndex r ids.length = (i : Int)} =
      Set.Ico ((i : ℚ) / ids.length) (((i : ℚ) + 1) / ids.length) ∧
    (∀ r ∈ Set.Ico ((i : ℚ) / ids.length) (((i : ℚ) + 1) / ids.length),
      pickRandomId ids r = .id (ids.get ⟨i, hi⟩)) := by
  have hlen : 0 < ids.length := by omega
  have hpos : (0 : ℚ) < (ids.length : ℚ) := by exact_mod_cast hlen
  refine ⟨?_, ?_⟩
  · ext r
    simp only [Set.mem_setOf_eq, Set.mem_Ico]
    rw [randomIndex_eq_iff r hlen i]
    constructor
    · rintro ⟨_, _, h⟩
      exact h
    · rintro ⟨hlo, hhi⟩
      refine ⟨?_, ?_, hlo, hhi⟩
      · exact le_trans (div_nonneg (Nat.cast_nonneg i) hpos.le) hlo
      · refine lt_of_lt_of_le hhi ?_
        rw [div_le_one hpos]
        exact_mod_cast hi
  · intro r hr
    exact pickRandomId_of_index ids r i hi ((randomIndex_eq_iff r hlen i).mpr hr)

/-! ## Binary64 rounding -/

lemma excessBits_succ (n p : Nat) :
    excessBits (n + 1) p = if p < 2 ^ 53 then 0 else excessBits n (p / 2) + 1 := rfl

lemma excessBits_of_lt (fuel p : Nat) (h : p < 2 ^ 53) : excessBits fuel p = 0 := by
  cases fuel with
  | zero => rfl
  | succ n => rw [excessBits_succ, if_pos h]

lemma roundSignificand_of_lt {p : Nat} (h : p < 2 ^ 53) : roundSignificand p = p := by
  unfold roundSignificand
  rw [if_pos h]

lemma excessBits_spec : ∀ (fuel p : Nat), p < 2 ^ 53 * 2 ^ fuel →
    p / 2 ^ excessBits fuel p < 2 ^ 53 ∧
    (2 ^ 53 ≤ p → 1 ≤ excessBits fuel p ∧ 2 ^ 52 ≤ p / 2 ^ excessBits fuel p) := by
  intro fuel
  induction fuel with
  | zero =>
    intro p hp
    have hp2 : p < 2 ^ 53 := by
      rw [pow_zero, mul_one] at hp
      exact hp
    refine ⟨?_, fun h => absurd hp2 (not_lt.mpr h)⟩
    rw [excessBits_of_lt 0 p hp2, pow_zero, Nat.div_one]
    exact hp2
  | succ n ih =>
    intro p hp
    by_cases hlt : p < 2 ^ 53
    · refine ⟨?_, fun h => absurd hlt (not_lt.mpr h)⟩
      rw [excessBits_of_lt (n + 1) p hlt, pow_zero, Nat.div_one]
      exact hlt
    · have hhalf : p / 2 < 2 ^ 53 * 2 ^ n := by
        rw [Nat.div_lt_iff_lt_mul (by norm_num)]
        calc p < 2 ^ 53 * 2 ^ (n + 1) := hp
          _ = 2 ^ 53 * 2 ^ n * 2 := by rw [pow_succ]; ring
      have h := ih (p / 2) hhalf
      have hk : excessBits (n + 1) p = excessBits n (p / 2) + 1 := by
        rw [excessBits_succ, if_neg hlt]
      have hdiv : p / 2 ^ (excessBits n (p / 2) + 1) = p / 2 / 2 ^ excessBits n (p / 2) := by
        rw [pow_succ, mul_comm, Nat.div_div_eq_div_mul]
      rw [hk, hdiv]
      refine ⟨h.1, fun _ => ⟨by omega, ?_⟩⟩
      by_cases h2 : 2 ^ 53 ≤ p / 2
      · exact (h.2 h2).2
      · have h3 : p / 2 < 2 ^ 53 := not_le.mp h2
        rw [excessBits_of_lt n (p / 2) h3]
        have h4 : 2 ^ 53 ≤ p := not_lt.mp hlt
        rw [pow_zero, Nat.div_one]
        have h5 : (2 : Nat) ^ 53 = 2 * 2 ^ 52 := by norm_num
        omega

/-- Shape of rounding a number of more than 53 bits: `p = q * 2^k + rem` with a 53-bit
`q`, and the result is `q * 2^k` or `(q + 1) * 2^k` according to the dropped bits. -/
lemma roundSignificand_shape (p : Nat) (hp : 2 ^ 53 ≤ p) :
    ∃ k q rem : Nat, 1 ≤ k ∧ p = q * 2 ^ k + rem ∧ rem < 2 ^ k ∧ 2 ^ 52 ≤ q ∧ q < 2 ^ 53 ∧
      ((roundSignificand p = q * 2 ^ k ∧ rem ≤ 2 ^ (k - 1)) ∨
       (roundSignificand p = (q + 1) * 2 ^ k ∧ 2 ^ (k - 1) ≤ rem)) := by
  have hfuel : p < 2 ^ 53 * 2 ^ p :=
    lt_of_lt_of_le (Nat.lt_two_pow p) (Nat.le_mul_of_pos_left _ (by positivity))
  obtain ⟨hq, hk⟩ := excessBits_spec p p hfuel
  obtain ⟨hk1, hq2⟩ := hk hp
  refine ⟨excessBits p p, p / 2 ^ excessBits p p, p % 2 ^ excessBits p p, hk1, ?_, ?_, hq2, hq, ?_⟩
  · rw [mul_comm]
    exact (Nat.div_add_mod p _).symm
  · exact Nat.mod_lt _ (by positivity)
  · unfold roundSignificand
    rw [if_neg (not_lt.mpr hp)]
    simp only
    split_ifs with h1 h2
    · exact Or.inl ⟨rfl, h1.le⟩
    · exact Or.inl ⟨rfl, h2.1.le⟩
    · exact Or.inr ⟨rfl, not_lt.mp h1⟩

lemma two_pow_pred_double {k : Nat} (hk : 1 ≤ k) : 2 ^ k = 2 * 2 ^ (k - 1) := by
  obtain ⟨j, rfl⟩ : ∃ j, k = j + 1 := ⟨k - 1, by omega⟩
  simp [pow_succ, mul_comm]

/-- A representable number that reaches `2^52 * 2^k` is a multiple of `2^k`. -/
lemma Representable.dvd_of_le {a k : Nat} (ha : Representable a) (hk : 1 ≤ k)
    (h : 2 ^ 52 * 2 ^ k ≤ a) : 2 ^ k ∣ a := by
  obtain ⟨c, t, hc, rfl⟩ := ha
  have hkt : k ≤ t := by
    by_contra hlt
    have ht : t ≤ k - 1 := by omega
    have h1 : 2 ^ t ≤ 2 ^ (k - 1) := Nat.pow_le_pow_right (by norm_num) ht
    have h2 : c * 2 ^ t < 2 ^ 53 * 2 ^ (k - 1) := by
      calc c * 2 ^ t ≤ c * 2 ^ (k - 1) := Nat.mul_le_mul_left _ h1
        _ < 2 ^ 53 * 2 ^ (k - 1) := Nat.mul_lt_mul_of_pos_right hc (by positivity)
    have h3 : 2 ^ 52 * 2 ^ k = 2 ^ 53 * 2 ^ (k - 1) := by
      rw [two_pow_pred_double hk]
      ring
    omega
  exact Dvd.dvd.mul_left (pow_dvd_pow 2 hkt) c

lemma roundSignificand_ge_of_representable {a p : Nat} (ha : Representable a) (h : a ≤ p) :
    a ≤ roundSignificand p := by
  by_cases hp : p < 2 ^ 53
  · rw [roundSignificand_of_lt hp]
    exact h
  · obtain ⟨k, q, rem, hk, hpq, hrem, hq1, hq2, hcase⟩ :=
      roundSignificand_shape p (not_lt.mp hp)
    have hlow : a ≤ q * 2 ^ k := by
      by_cases hsmall : a < 2 ^ 52 * 2 ^ k
      · exact le_trans hsmall.le (Nat.mul_le_mul_right _ hq1)
      · obtain ⟨a2, rfl⟩ := ha.dvd_of_le hk (not_lt.mp hsmall)
        have : a2 < q + 1 := by
          by_contra hge
          have h5 : (q + 1) * 2 ^ k ≤ 2 ^ k * a2 := by
            rw [mul_comm (2 ^ k) a2]
            exact Nat.mul_le_mul_right _ (not_lt.mp hge)
          have h6 : (q + 1) * 2 ^ k = q * 2 ^ k + 2 ^ k := by ring
          omega
        rw [mul_comm (2 ^ k) a2]
        exact Nat.mul_le_mul_right _ (by omega)
    rcases hcase with ⟨hr, _⟩ | ⟨hr, _⟩
    · rw [hr]; exact hlow
    · rw [hr]; exact le_trans hlow (Nat.mul_le_mul_right _ (by omega))

lemma roundSignificand_le_of_representable {b p : Nat} (hb : Representable b) (h : p ≤ b) :
    roundSignificand p ≤ b := by
  by_cases hp : p < 2 ^ 53
  · rw [roundSignificand_of_lt hp]
    exact h
  · obtain ⟨k, q, rem, hk, hpq, hrem, hq1, hq2, hcase⟩ :=
      roundSignificand_shape p (not_lt.mp hp)
    rcases hcase with ⟨hr, _⟩ | ⟨hr, hhalf⟩
    · rw [hr]; omega
    · rw [hr]
      have hpos : 1 ≤ 2 ^ (k - 1) := Nat.one_le_two_pow
      by_cases hbig : 2 ^ 53 * 2 ^ k ≤ b
      · exact le_trans (Nat.mul_le_mul_right _ (by omega)) hbig
      · have hge : 2 ^ 52 * 2 ^ k ≤ b :=
          le_trans (Nat.mul_le_mul_right _ hq1) (by omega)
        obtain ⟨b2, rfl⟩ := hb.dvd_of_le hk hge
        have : q < b2 := by
          by_contra hge2
          have h5 : 2 ^ k * b2 ≤ q * 2 ^ k := by
            rw [mul_comm (2 ^ k) b2]
            exact Nat.mul_le_mul_right _ (not_lt.mp hge2)
          omega
        rw [mul_comm (2 ^ k) b2]
        exact Nat.mul_le_mul_right _ (by omega)

/-- The product of a significand below `2^53` and of a length, taken below `len * 2^e`,
does not round up to `len * 2^e`. -/
lemma roundSignificand_mul_lt {m len e : Nat} (hm : m < 2 ^ 53) (hme : m < 2 ^ e)
    (hlen : 1 ≤ len) : roundSignificand (m * len) < len * 2 ^ e := by
  have hgap : m * len + len ≤ len * 2 ^ e := by
    have : (m + 1) * len ≤ 2 ^ e * len := Nat.mul_le_mul_right _ hme
    calc m * len + len = (m + 1) * len := by ring
      _ ≤ 2 ^ e * len := this
      _ = len * 2 ^ e := by ring
  by_cases hp : m * len < 2 ^ 53
  · rw [roundSignificand_of_lt hp]
    omega
  · obtain ⟨k, q, rem, hk, hpq, hrem, hq1, hq2, hcase⟩ :=
      roundSignificand_shape (m * len) (not_lt.mp hp)
    rcases hcase with ⟨hr, _⟩ | ⟨hr, hhalf⟩
    · rw [hr]; omega
    · rw [hr]
      by_contra hge
      have hdouble := two_pow_pred_double hk
      have h1 : (q + 1) * 2 ^ k = q * 2 ^ k + 2 ^ k := by ring
      have hlenle : len ≤ 2 ^ (k - 1) := by omega
      have h2 : m * len < 2 ^ 53 * 2 ^ (k - 1) :=
        calc m * len ≤ m * 2 ^ (k - 1) := Nat.mul_le_mul_left _ hlenle
          _ < 2 ^ 53 * 2 ^ (k - 1) := Nat.mul_lt_mul_of_pos_right hm (by positivity)
      have h3 : 2 ^ 52 * 2 ^ k = 2 ^ 53 * 2 ^ (k - 1) := by
        rw [hdouble]; ring
      have h4 : 2 ^ 52 * 2 ^ k ≤ q * 2 ^ k := Nat.mul_le_mul_right _ hq1
      omega

/-! ## Random choice in binary64 -/

lemma representable_mul_two_pow {c : Nat} (hc : c < 2 ^ 53) (t : Nat) :
    Representable (c * 2 ^ t) := ⟨c, t, hc, rfl⟩

/-- The exact index is the quotient of the integer product by the power of two. -/
lemma randomIndex_toRat (d : Draw64) (len : Nat) :
    randomIndex d.toRat len = ((d.m * len / 2 ^ d.e : Nat) : Int) := by
  unfold randomIndex Draw64.toRat
  rw [Int.floor_eq_iff]
  have hE : (0 : ℚ) < (2 : ℚ) ^ d.e := by positivity
  have h1 : d.m * len / 2 ^ d.e * 2 ^ d.e ≤ d.m * len := Nat.div_mul_le_self _ _
  have h2 : d.m * len < (d.m * len / 2 ^ d.e + 1) * 2 ^ d.e := by
    have := Nat.lt_succ_iff.mpr (le_refl (d.m * len / 2 ^ d.e))
    rw [Nat.div_lt_iff_lt_mul (by positivity)] at this
    exact this
  have h1q : ((d.m * len / 2 ^ d.e : Nat) : ℚ) * 2 ^ d.e ≤ (d.m : ℚ) * len := by
    exact_mod_cast h1
  have h2q : (d.m : ℚ) * len < (((d.m * len / 2 ^ d.e : Nat) : ℚ) + 1) * 2 ^ d.e := by
    exact_mod_cast h2
  constructor
  · rw [Int.cast_natCast, div_mul_eq_mul_div, le_div_iff₀ hE]
    exact h1q
  · rw [Int.cast_natCast, div_mul_eq_mul_div, div_lt_iff₀ hE]
    exact h2q

/-- In binary64 the index is the exact index or the next one, and it stays below the
length. -/
lemma randomIndexF64_bounds (d : Draw64) (len : Nat) (hd : d.valid) (hpos : 1 ≤ len)
    (hlen : len < 2 ^ 53) :
    d.m * len / 2 ^ d.e ≤ randomIndexF64 d len ∧
    randomIndexF64 d len ≤ d.m * len / 2 ^ d.e + 1 ∧
    randomIndexF64 d len < len := by
  obtain ⟨hm, hme, _⟩ := hd
  have hEpos : 0 < 2 ^ d.e := by positivity
  have h1 : d.m * len / 2 ^ d.e * 2 ^ d.e ≤ d.m * len := Nat.div_mul_le_self _ _
  have h2 : d.m * len < (d.m * len / 2 ^ d.e + 1) * 2 ^ d.e := by
    have := Nat.lt_succ_iff.mpr (le_refl (d.m * len / 2 ^ d.e))
    rw [Nat.div_lt_iff_lt_mul hEpos] at this
    exact this
  have hxlt : d.m * len / 2 ^ d.e < len := by
    rw [Nat.div_lt_iff_lt_mul hEpos]
    calc d.m * len < 2 ^ d.e * len := Nat.mul_lt_mul_of_pos_right hme (by omega)
      _ = len * 2 ^ d.e := mul_comm _ _
  unfold randomIndexF64
  refine ⟨?_, ?_, ?_⟩
  · rw [Nat.le_div_iff_mul_le hEpos]
    exact roundSignificand_ge_of_representable
      (representable_mul_two_pow (by omega) d.e) h1
  · have hle : roundSignificand (d.m * len) ≤ (d.m * len / 2 ^ d.e + 1) * 2 ^ d.e :=
      roundSignificand_le_of_representable
        (representable_mul_two_pow (by omega) d.e) h2.le
    calc roundSignificand (d.m * len) / 2 ^ d.e
        ≤ (d.m * len / 2 ^ d.e + 1) * 2 ^ d.e / 2 ^ d.e := Nat.div_le_div_right hle
      _ = d.m * len / 2 ^ d.e + 1 := Nat.mul_div_cancel _ hEpos
  · rw [Nat.div_lt_iff_lt_mul hEpos]
    exact roundSignificand_mul_lt hm hme hpos

lemma randomIndexF64_exact (d : Draw64) (len : Nat) (h : d.m * len < 2 ^ 53) :
    randomIndexF64 d len = d.m * len / 2 ^ d.e := by
  unfold randomIndexF64
  rw [roundSignificand_of_lt h]

lemma pickRandomIdF64_of_lt (ids : List Int) (d : Draw64)
    (h : randomIndexF64 d ids.length < ids.length) :
    pickRandomIdF64 ids d = .id (ids.get ⟨randomIndexF64 d ids.length, h⟩) := by
  unfold pickRandomIdF64
  rw [if_neg (by omega), elementAt_ofNat ids _ h]

lemma pickRandomIdF64_mem (ids : List Int) (d : Draw64) (hd : d.valid) (hne : ids ≠ [])
    (hlen : ids.length < 2 ^ 53) : ∃ x, pickRandomIdF64 ids d = .id x ∧ x ∈ ids := by
  have h := (randomIndexF64_bounds d ids.length hd (List.length_pos.mpr hne) hlen).2.2
  exact ⟨_, pickRandomIdF64_of_lt ids d h, List.get_mem _ _ _⟩

/-- C6: `pickRandomId` returns `null` on the empty sequence; on a non-empty sequence and
a draw in [0,1) the index `Math.floor(r * len)` is within bounds and the value returned
is an element of the sequence. This holds in exact arithmetic for every rational draw,
and for the binary64 computation of the engine on every binary64 draw. -/
theorem pickRandomId_null_or_member (ids : List Int) (r : ℚ) (h0 : 0 ≤ r) (h1 : r < 1) :
    (ids = [] → pickRandomId ids r = .null) ∧
    (ids ≠ [] →
      0 ≤ randomIndex r ids.length ∧ randomIndex r ids.length < ids.length ∧
      ∃ x, pickRandomId ids r = .id x ∧ x ∈ ids) ∧
    (∀ d : Draw64, d.valid → ids.length < 2 ^ 53 →
      (ids = [] → pickRandomIdF64 ids d = .null) ∧
      (ids ≠ [] →
        randomIndexF64 d ids.length < ids.length ∧
        ∃ x, pickRandomIdF64 ids d = .id x ∧ x ∈ ids)) := by
  refine ⟨?_, ?_, ?_⟩
  · intro h
    subst h
    rfl
  · intro hne
    exact ⟨randomIndex_nonneg h0 _, randomIndex_lt h1 (List.length_pos.mpr hne),
      pickRandomId_mem ids r h0 h1 hne⟩
  · intro d hd hlen
    refine ⟨?_, ?_⟩
    · intro h
      subst h
      rfl
    · intro hne
      exact ⟨(randomIndexF64_bounds d ids.length hd (List.length_pos.mpr hne) hlen).2.2,
        pickRandomIdF64_mem ids d hd hne hlen⟩

theorem pickRandomId_null_or_member_witness :
    (0 : ℚ) ≤ 1 / 2 ∧ (1 / 2 : ℚ) < 1 ∧
    ((([7, 8, 9] : List Int) = [] → pickRandomId [7, 8, 9] (1 / 2) = .null) ∧
     (([7, 8, 9] : List Int) ≠ [] →
      0 ≤ randomIndex (1 / 2) ([7, 8, 9] : List Int).length ∧
      randomIndex (1 / 2) ([7, 8, 9] : List Int).length < ([7, 8, 9] : List Int).length ∧
      ∃ x, pickRandomId [7, 8, 9] (1 / 2) = .id x ∧ x ∈ ([7, 8, 9] : List Int)) ∧
     (∀ d : Draw64, d.valid → ([7, 8, 9] : List Int).length < 2 ^ 53 →
      (([7, 8, 9] : List Int) = [] → pickRandomIdF64 [7, 8, 9] d = .null) ∧
      (([7, 8, 9] : List Int) ≠ [] →
        randomIndexF64 d ([7, 8, 9] : List Int).length < ([7, 8, 9] : List Int).length ∧
        ∃ x, pickRandomIdF64 [7, 8, 9] d = .id x ∧ x ∈ ([7, 8, 9] : List Int)))) ∧
    drawBelowFiveSixths.valid ∧
    pickRandomIdF64 [7, 8, 9] drawBelowFiveSixths = .id 9 :=
  ⟨by norm_num, by norm_num,
   pickRandomId_null_or_member [7, 8, 9] (1 / 2) (by norm_num) (by norm_num),
   by decide, by decide⟩

/-- C10 (as stated, refuted): the binary64 draw 3752999689475413 / 2^52 lies in
[4/6, 5/6), where the claim has position 4 of a six-element sequence read (as exact
arithmetic does), but its binary64 product with 6 rounds to 5 and `pickRandomId`
returns the element at position 5. -/
theorem pickRandomIdF64_off_interval :
    drawBelowFiveSixths.valid ∧
    (4 : ℚ) / 6 ≤ drawBelowFiveSixths.toRat ∧ drawBelowFiveSixths.toRat < 5 / 6 ∧
    randomIndex drawBelowFiveSixths.toRat 6 = 4 ∧
    randomIndexF64 drawBelowFiveSixths 6 = 5 ∧
    pickRandomIdF64 [10, 20, 30, 40, 50, 60] drawBelowFiveSixths = .id 60 := by
  refine ⟨by decide, ?_, ?_, ?_, by decide, by decide⟩
  · norm_num [Draw64.toRat, drawBelowFiveSixths]
  · norm_num [Draw64.toRat, drawBelowFiveSixths]
  · rw [randomIndex_toRat]
    decide

/-- C10 (amended): for a non-empty sequence of length `n < 2^53` and a binary64 draw
`r` of [0,1), `pickRandomId` returns the element at position `floor(fl(r * n))`, `fl`
being the binary64 rounding of the product. That position is below `n` and is the
exact `floor(r * n)` or the next position. Hence a draw with `i/n <= r < (i+1)/n` reads
position `i` or `i + 1`, a draw that reads position `i` has `(i-1)/n <= r < (i+1)/n`,
and where the product is exact in binary64 (`m * n < 2^53` for `r = m / 2^e`) position
`i` is read exactly for the draws with `i/n <= r < (i+1)/n`. -/
theorem pickRandomIdF64_position (ids : List Int) (d : Draw64) (hne : ids ≠ [])
    (hlen : ids.length < 2 ^ 53) (hd : d.valid) :
    (∃ h : randomIndexF64 d ids.length < ids.length,
      pickRandomIdF64 ids d = .id (ids.get ⟨randomIndexF64 d ids.length, h⟩)) ∧
    ((randomIndexF64 d ids.length : Int) = randomIndex d.toRat ids.length ∨
     (randomIndexF64 d ids.length : Int) = randomIndex d.toRat ids.length + 1) ∧
    (∀ i : Nat, (i : ℚ) / ids.length ≤ d.toRat → d.toRat < ((i : ℚ) + 1) / ids.length →
      randomIndexF64 d ids.length = i ∨ randomIndexF64 d ids.length = i + 1) ∧
    (∀ i : Nat, randomIndexF64 d ids.length = i →
      ((i : ℚ) - 1) / ids.length ≤ d.toRat ∧ d.toRat < ((i : ℚ) + 1) / ids.length) ∧
    (d.m * ids.length < 2 ^ 53 → ∀ i : Nat,
      (randomIndexF64 d ids.length = i ↔
        (i : ℚ) / ids.length ≤ d.toRat ∧ d.toRat < ((i : ℚ) + 1) / ids.length)) := by
  have hpos : 0 < ids.length := List.length_pos.mpr hne
  have hposq : (0 : ℚ) < (ids.length : ℚ) := by exact_mod_cast hpos
  obtain ⟨hlo, hhi, hlt⟩ := randomIndexF64_bounds d ids.length hd hpos hlen
  have hex := randomIndex_toRat d ids.length
  have hor : randomIndexF64 d ids.length = d.m * ids.length / 2 ^ d.e ∨
      randomIndexF64 d ids.length = d.m * ids.length / 2 ^ d.e + 1 := by omega
  refine ⟨⟨hlt, pickRandomIdF64_of_lt ids d hlt⟩, ?_, ?_, ?_, ?_⟩
  · rw [hex]
    rcases hor with h | h
    · left; rw [h]
    · right; rw [h]; push_cast; rfl
  · intro i h1 h2
    have hi : randomIndex d.toRat ids.length = (i : Int) :=
      (randomIndex_eq_iff d.toRat hpos i).mpr ⟨h1, h2⟩
    rw [hex] at hi
    have hi2 : d.m * ids.length / 2 ^ d.e = i := by exact_mod_cast hi
    rw [hi2] at hor
    exact hor
  · intro i hi
    rw [hi] at hor
    rcases hor with h | h
    · have := (randomIndex_eq_iff d.toRat hpos i).mp (by rw [hex, ← h])
      refine ⟨le_trans ?_ this.1, this.2⟩
      apply div_le_div_of_nonneg_right _ hposq.le
      linarith
    · obtain ⟨j, hj⟩ : ∃ j, d.m * ids.length / 2 ^ d.e = j := ⟨_, rfl⟩
      rw [hj] at h
      have hexj : randomIndex d.toRat ids.length = (j : Int) := by rw [hex, hj]
      have := (randomIndex_eq_iff d.toRat hpos j).mp hexj
      subst h
      push_cast
      refine ⟨by simpa using this.1, lt_trans this.2 ?_⟩
      apply div_lt_div_of_pos_right _ hposq
      linarith
  · intro hexact i
    rw [randomIndexF64_exact d ids.length hexact, ← randomIndex_eq_iff d.toRat hpos i, hex]
    exact Nat.cast_inj.symm

theorem pickRandomIdF64_position_witness :
    (∃ h : randomIndexF64 drawBelowFiveSixths ([10, 20, 30, 40, 50, 60] : List Int).length
        < ([10, 20, 30, 40, 50, 60] : List Int).length,
      pickRandomIdF64 [10, 20, 30, 40, 50, 60] drawBelowFiveSixths =
        .id (([10, 20, 30, 40, 50, 60] : List Int).get
          ⟨randomIndexF64 drawBelowFiveSixths ([10, 20, 30, 40, 50, 60] : List Int).length, h⟩)) ∧
    ((randomIndexF64 drawBelowFiveSixths ([10, 20, 30, 40, 50, 60] : List Int).length : Int) =
        randomIndex drawBelowFiveSixths.toRat ([10, 20, 30, 40, 50, 60] : List Int).length ∨
     (randomIndexF64 drawBelowFiveSixths ([10, 20, 30, 40, 50, 60] : List Int).length : Int) =
        randomIndex drawBelowFiveSixths.toRat ([10, 20, 30, 40, 50, 60] : List Int).length + 1) :=
  ⟨(pickRandomIdF64_position [10, 20, 30, 40, 50, 60] drawBelowFiveSixths (by decide)
      (by decide) (by decide)).1,
   (pickRandomIdF64_position [10, 20, 30, 40, 50, 60] drawBelowFiveSixths (by decide)
      (by decide) (by decide)).2.1⟩

/-! ## The CSV cache -/

lemma csvResult_of_failed {o : FetchOutcome} (h : o.failed = true) : csvResult o = [] := by
  cases o with
  | networkError => rfl
  | response ok body =>
    cases ok <;> cases body <;> simp_all [FetchOutcome.failed, csvResult]

lemma lookup_append_of_some {k : String} {p : Nat} (l l2 : List (String × Nat))
    (h : l.lookup k = some p) : (l ++ l2).lookup k = some p := by
  induction l with
  | nil => simp at h
  | cons hd tl ih =>
    obtain ⟨k1, v1⟩ := hd
    simp only [List.cons_append, List.lookup_cons] at h ⊢
    cases hk : (k == k1) with
    | true => simpa [hk] using h
    | false =>
      rw [hk] at h
      simpa using ih h

lemma lookup_append_of_none {k : String} (l l2 : List (String × Nat))
    (h : l.lookup k = none) : (l ++ l2).lookup k = l2.lookup k := by
  induction l with
  | nil => rfl
  | cons hd tl ih =>
    obtain ⟨k1, v1⟩ := hd
    simp only [List.cons_append, List.lookup_cons] at h ⊢
    cases hk : (k == k1) with
    | true => simp [hk] at h
    | false =>
      rw [hk] at h
      simpa using ih h

lemma loadCsvIds_of_cached {st : Engine} {path : String} {p : Nat}
    (h : st.CSV_CACHE.lookup path = some p) : loadCsvIds st path = (p, st) := by
  simp [loadCsvIds, h]

lemma loadCsvIds_caches (st : Engine) (path : String) :
    (loadCsvIds st path).2.CSV_CACHE.lookup path = some (loadCsvIds st path).1 := by
  unfold loadCsvIds
  cases h : st.CSV_CACHE.lookup path with
  | some p => simpa using h
  | none =>
    simp only
    rw [lookup_append_of_none _ _ h]
    simp [List.lookup]

lemma loadCsvIds_fresh {st : Engine} {path : String} (h : st.CSV_CACHE.lookup path = none) :
    promiseValue (loadCsvIds st path).2 (loadCsvIds st path).1 = none ∧
    (loadCsvIds st path).2.fetchLog = st.fetchLog ++ [path] := by
  simp [loadCsvIds, h, promiseValue]

lemma step_keeps_entry {st : Engine} {path : String} {p : Nat}
    (h : st.CSV_CACHE.lookup path = some p) (ev : Event) :
    (step st ev).CSV_CACHE.lookup path = some p ∧
    (step st ev).fetchLog.count path = st.fetchLog.count path := by
  cases ev with
  | load path2 =>
    simp only [step, loadCsvIds]
    cases h2 : st.CSV_CACHE.lookup path2 with
    | some q => exact ⟨h, rfl⟩
    | none =>
      have hne : path2 ≠ path := by
        intro he
        rw [he, h] at h2
        cases h2
      refine ⟨lookup_append_of_some _ _ h, ?_⟩
      simp [List.count_append, List.count_cons, hne]
  | settle q outcome =>
    simp only [step, settle]
    split <;> exact ⟨h, rfl⟩

lemma run_keeps_entry {path : String} {p : Nat} (evs : List Event) :
    ∀ {st : Engine}, st.CSV_CACHE.lookup path = some p →
      (run st evs).CSV_CACHE.lookup path = some p ∧
      (run st evs).fetchLog.count path = st.fetchLog.count path := by
  induction evs with
  | nil => intro st h; exact ⟨h, rfl⟩
  | cons ev rest ih =>
    intro st h
    have h1 := step_keeps_entry h ev
    have h2 := ih h1.1
    exact ⟨h2.1, h2.2.trans h1.2⟩

lemma step_keeps_value {st : Engine} {p : Nat} {v : List Int}
    (h : promiseValue st p = some v) (ev : Event) : promiseValue (step st ev) p = some v := by
  have hget : st.promises.get? p = some (some v) := by
    unfold promiseValue at h
    cases hg : st.promises.get? p with
    | none =>
      rw [hg] at h
      cases h
    | some o =>
      rw [hg] at h
      cases o with
      | none => cases h
      | some v2 =>
        have : v2 = v := by simpa [Option.join] using h
        rw [this]
  cases ev with
  | load path2 =>
    simp only [step, loadCsvIds]
    cases h2 : st.CSV_CACHE.lookup path2 with
    | some q => exact h
    | none =>
      have hlt : p < st.promises.length := by
        rcases Nat.lt_or_ge p st.promises.length with h | h
        · exact h
        · rw [List.get?_eq_none.mpr h] at hget
          cases hget
      simp only [promiseValue]
      rw [List.get?_eq_getElem?, List.getElem?_append_left hlt, ← List.get?_eq_getElem?, hget]
      rfl
  | settle q outcome =>
    simp only [step, settle]
    split
    · rename_i hq
      have hne : q ≠ p := by
        intro he
        rw [he, hget] at hq
        cases hq
      simp only [promiseValue]
      rw [List.get?_eq_getElem?, List.getElem?_set_ne hne, ← List.get?_eq_getElem?, hget]
      rfl
    · exact h

lemma run_keeps_value {p : Nat} {v : List Int} (evs : List Event) :
    ∀ {st : Engine}, promiseValue st p = some v → promiseValue (run st evs) p = some v := by
  induction evs with
  | nil => intro st h; exact h
  | cons ev rest ih =>
    intro st h
    exact ih (step_keeps_value h ev)

lemma step_promises_length (st : Engine) (ev : Event) :
    st.promises.length ≤ (step st ev).promises.length := by
  cases ev with
  | load path2 =>
    simp only [step, loadCsvIds]
    split
    · exact le_refl _
    · simp
  | settle q outcome =>
    simp only [step, settle]
    split
    · simp
    · exact le_refl _

lemma run_promises_length (evs : List Event) :
    ∀ st : Engine, st.promises.length ≤ (run st evs).promises.length := by
  induction evs with
  | nil => intro st; exact le_refl _
  | cons ev rest ih =>
    intro st
    exact le_trans (step_promises_length st ev) (ih (step st ev))

/-- Completion of a pending promise fulfils it with the decoded outcome. -/
lemma settle_of_pending {st : Engine} {p : Nat} (hp : p < st.promises.length)
    (h : promiseValue st p = none) (outcome : FetchOutcome) :
    promiseValue (settle st p outcome) p = some (csvResult outcome) := by
  have hget : st.promises.get? p = some none := by
    unfold promiseValue at h
    cases hg : st.promises.get? p with
    | none =>
      rw [List.get?_eq_none] at hg
      omega
    | some o =>
      rw [hg] at h
      cases o with
      | none => rfl
      | some v => cases h
  unfold settle
  rw [hget]
  simp only [promiseValue]
  rw [List.get?_eq_getElem?, List.getElem?_set_self hp]
  rfl

lemma settle_keeps_cache (st : Engine) (p : Nat) (outcome : FetchOutcome) :
    (settle st p outcome).CSV_CACHE = st.CSV_CACHE ∧
    (settle st p outcome).fetchLog = st.fetchLog := by
  unfold settle
  split <;> exact ⟨rfl, rfl⟩

lemma awaitCsvIds_of_pending (w : World) {st : Engine} {path : String} {p : Nat}
    (hentry : st.CSV_CACHE.lookup path = some p) (hp : p < st.promises.length)
    (h : promiseValue st p = none) :
    awaitCsvIds w st path = (csvResult (w.fetchCsv path), settle st p (w.fetchCsv path)) := by
  unfold awaitCsvIds
  rw [loadCsvIds_of_cached hentry]
  simp only [h, settle_of_pending hp h (w.fetchCsv path), Option.getD_some]

lemma awaitCsvIds_of_settled (w : World) {st : Engine} {path : String} {p : Nat}
    {v : List Int} (hentry : st.CSV_CACHE.lookup path = some p)
    (h : promiseValue st p = some v) : awaitCsvIds w st path = (v, st) := by
  unfold awaitCsvIds
  rw [loadCsvIds_of_cached hentry]
  simp only [h]

/-- C5: a source that is not cached is loaded by a first call of `loadCsvIds`, which
issues one fetch and caches the pending promise. If a second call for the same source
comes while that promise is still pending, whatever other loads and completions
happened in between, it returns the same promise and changes nothing: no second fetch.
When the one fetch completes, the shared promise is fulfilled with the decoded
sequence of that fetch, which is what both callers receive, then and at any later
time (also when they `await` the load one after the other), and the source has been
fetched exactly once more than before the first call. -/
theorem loadCsvIds_joins_pending_load (w : World) (st : Engine) (path : String)
    (evs : List Event) (outcome : FetchOutcome) (evs2 : List Event)
    (hfresh : st.CSV_CACHE.lookup path = none)
    (hpending :
      promiseValue (run (loadCsvIds st path).2 evs) (loadCsvIds st path).1 = none) :
    (loadCsvIds st path).2.fetchLog = st.fetchLog ++ [path] ∧
    loadCsvIds (run (loadCsvIds st path).2 evs) path =
      ((loadCsvIds st path).1, run (loadCsvIds st path).2 evs) ∧
    promiseValue
      (settle (run (loadCsvIds st path).2 evs) (loadCsvIds st path).1 outcome)
      (loadCsvIds st path).1 = some (csvResult outcome) ∧
    promiseValue
      (run (settle (run (loadCsvIds st path).2 evs) (loadCsvIds st path).1 outcome) evs2)
      (loadCsvIds st path).1 = some (csvResult outcome) ∧
    loadCsvIds
      (run (settle (run (loadCsvIds st path).2 evs) (loadCsvIds st path).1 outcome) evs2)
      path =
      ((loadCsvIds st path).1,
       run (settle (run (loadCsvIds st path).2 evs) (loadCsvIds st path).1 outcome) evs2) ∧
    (run (settle (run (loadCsvIds st path).2 evs) (loadCsvIds st path).1 outcome)
      evs2).fetchLog.count path = st.fetchLog.count path + 1 ∧
    awaitCsvIds w (run (loadCsvIds st path).2 evs) path =
      (csvResult (w.fetchCsv path),
       settle (run (loadCsvIds st path).2 evs) (loadCsvIds st path).1 (w.fetchCsv path)) ∧
    awaitCsvIds w
      (settle (run (loadCsvIds st path).2 evs) (loadCsvIds st path).1 (w.fetchCsv path)) path =
      (csvResult (w.fetchCsv path),
       settle (run (loadCsvIds st path).2 evs) (loadCsvIds st path).1 (w.fetchCsv path)) := by
  have hentry := run_keeps_entry evs (loadCsvIds_caches st path)
  have hlt : (loadCsvIds st path).1 < (run (loadCsvIds st path).2 evs).promises.length := by
    refine lt_of_lt_of_le ?_ (run_promises_length evs _)
    simp [loadCsvIds, hfresh]
  have hval := settle_of_pending hlt hpending outcome
  have hcache := settle_keeps_cache (run (loadCsvIds st path).2 evs)
    (loadCsvIds st path).1 outcome
  have hentry2 : (settle (run (loadCsvIds st path).2 evs)
      (loadCsvIds st path).1 outcome).CSV_CACHE.lookup path = some (loadCsvIds st path).1 := by
    rw [hcache.1]
    exact hentry.1
  have hrun2 := run_keeps_entry evs2 hentry2
  have hcachew := settle_keeps_cache (run (loadCsvIds st path).2 evs)
    (loadCsvIds st path).1 (w.fetchCsv path)
  have hentryw : (settle (run (loadCsvIds st path).2 evs)
      (loadCsvIds st path).1 (w.fetchCsv path)).CSV_CACHE.lookup path
      = some (loadCsvIds st path).1 := by
    rw [hcachew.1]
    exact hentry.1
  refine ⟨(loadCsvIds_fresh hfresh).2, loadCsvIds_of_cached hentry.1, hval,
    run_keeps_value evs2 hval, loadCsvIds_of_cached hrun2.1, ?_,
    awaitCsvIds_of_pending w hentry.1 hlt hpending,
    awaitCsvIds_of_settled w hentryw (settle_of_pending hlt hpending (w.fetchCsv path))⟩
  rw [hrun2.2, hcache.2, hentry.2, (loadCsvIds_fresh hfresh).2]
  simp [List.count_append]

theorem loadCsvIds_joins_pending_load_witness :
    promiseValue
      (settle (run (loadCsvIds (Engine.init []) "data/Batch_1.csv").2
          [.load "data/Batch_2.csv", .load "data/Batch_1.csv"])
        (loadCsvIds (Engine.init []) "data/Batch_1.csv").1 (.response true (some "5\n6")))
      (loadCsvIds (Engine.init []) "data/Batch_1.csv").1
      = some (csvResult (.response true (some "5\n6"))) ∧
    (run (settle (run (loadCsvIds (Engine.init []) "data/Batch_1.csv").2
          [.load "data/Batch_2.csv", .load "data/Batch_1.csv"])
        (loadCsvIds (Engine.init []) "data/Batch_1.csv").1 (.response true (some "5\n6")))
      [.load "data/Batch_1.csv"]).fetchLog.count "data/Batch_1.csv"
      = (Engine.init []).fetchLog.count "data/Batch_1.csv" + 1 ∧
    csvResult (.response true (some "5\n6")) = [5, 6] :=
  ⟨(loadCsvIds_joins_pending_load demoWorld (Engine.init []) "data/Batch_1.csv"
      [.load "data/Batch_2.csv", .load "data/Batch_1.csv"] (.response true (some "5\n6"))
      [.load "data/Batch_1.csv"] (by decide) (by decide)).2.2.1,
   (loadCsvIds_joins_pending_load demoWorld (Engine.init []) "data/Batch_1.csv"
      [.load "data/Batch_2.csv", .load "data/Batch_1.csv"] (.response true (some "5\n6"))
      [.load "data/Batch_1.csv"] (by decide) (by decide)).2.2.2.2.2.1,
   by decide⟩

/-- C4 (as stated, refuted): after the load of "data/Batch_1.csv" fails with a network
error, the cache still holds the entry of that source, and the next call returns the
cached promise, fulfilled with the empty sequence, without a second fetch. -/
theorem loadCsvIds_failure_stays_cached :
    ¬ ((settle (loadCsvIds (Engine.init []) "data/Batch_1.csv").2
          (loadCsvIds (Engine.init []) "data/Batch_1.csv").1
          .networkError).CSV_CACHE.lookup "data/Batch_1.csv" = none) ∧
    (loadCsvIds (settle (loadCsvIds (Engine.init []) "data/Batch_1.csv").2
          (loadCsvIds (Engine.init []) "data/Batch_1.csv").1 .networkError)
        "data/Batch_1.csv").2.fetchLog = ["data/Batch_1.csv"] ∧
    promiseValue (loadCsvIds (settle (loadCsvIds (Engine.init []) "data/Batch_1.csv").2
          (loadCsvIds (Engine.init []) "data/Batch_1.csv").1 .networkError)
        "data/Batch_1.csv").2
      (loadCsvIds (settle (loadCsvIds (Engine.init []) "data/Batch_1.csv").2
          (loadCsvIds (Engine.init []) "data/Batch_1.csv").1 .networkError)
        "data/Batch_1.csv").1 = some [] := by
  refine ⟨?_, ?_, ?_⟩
  · decide
  · decide
  · decide

/-- C4 (amended): when the fetch of a source that was not cached fails, the promise
returned by `loadCsvIds` is fulfilled with the empty sequence (nothing is thrown), and
the cache keeps the entry of that source: whatever happens later, the next call for the
source returns the same promise, still fulfilled with the empty sequence, and no new
fetch of the source is issued. -/
theorem loadCsvIds_failure_cached (st : Engine) (path : String) (outcome : FetchOutcome)
    (hfresh : st.CSV_CACHE.lookup path = none) (hfail : outcome.failed = true)
    (evs : List Event) :
    promiseValue (settle (loadCsvIds st path).2 (loadCsvIds st path).1 outcome)
      (loadCsvIds st path).1 = some [] ∧
    loadCsvIds (run (settle (loadCsvIds st path).2 (loadCsvIds st path).1 outcome) evs) path =
      ((loadCsvIds st path).1,
        run (settle (loadCsvIds st path).2 (loadCsvIds st path).1 outcome) evs) ∧
    promiseValue (run (settle (loadCsvIds st path).2 (loadCsvIds st path).1 outcome) evs)
      (loadCsvIds st path).1 = some [] ∧
    (run (settle (loadCsvIds st path).2 (loadCsvIds st path).1 outcome) evs).fetchLog.count path =
      st.fetchLog.count path + 1 := by
  have hval : promiseValue (settle (loadCsvIds st path).2 (loadCsvIds st path).1 outcome)
      (loadCsvIds st path).1 = some [] := by
    simp [loadCsvIds, hfresh, settle, promiseValue, csvResult_of_failed hfail]
  have hentry : (settle (loadCsvIds st path).2 (loadCsvIds st path).1 outcome).CSV_CACHE.lookup path
      = some (loadCsvIds st path).1 :=
    (step_keeps_entry (loadCsvIds_caches st path) (.settle _ outcome)).1
  have hlog : (settle (loadCsvIds st path).2 (loadCsvIds st path).1 outcome).fetchLog.count path
      = st.fetchLog.count path + 1 := by
    have := (step_keeps_entry (loadCsvIds_caches st path) (.settle (loadCsvIds st path).1 outcome)).2
    simp only [step] at this
    rw [this, (loadCsvIds_fresh hfresh).2]
    simp [List.count_append]
  have h := run_keeps_entry evs hentry
  exact ⟨hval, loadCsvIds_of_cached h.1, run_keeps_value evs hval, h.2.trans hlog⟩

theorem loadCsvIds_failure_cached_witness :
    promiseValue (settle (loadCsvIds (Engine.init ["RPG"]) "data/Batch_2.csv").2
      (loadCsvIds (Engine.init ["RPG"]) "data/Batch_2.csv").1 (.response false none))
      (loadCsvIds (Engine.init ["RPG"]) "data/Batch_2.csv").1 = some [] ∧
    loadCsvIds (run (settle (loadCsvIds (Engine.init ["RPG"]) "data/Batch_2.csv").2
      (loadCsvIds (Engine.init ["RPG"]) "data/Batch_2.csv").1 (.response false none))
        [.load "data/Batch_3.csv"]) "data/Batch_2.csv" =
      ((loadCsvIds (Engine.init ["RPG"]) "data/Batch_2.csv").1,
        run (settle (loadCsvIds (Engine.init ["RPG"]) "data/Batch_2.csv").2
          (loadCsvIds (Engine.init ["RPG"]) "data/Batch_2.csv").1 (.response false none))
          [.load "data/Batch_3.csv"]) ∧
    promiseValue (run (settle (loadCsvIds (Engine.init ["RPG"]) "data/Batch_2.csv").2
      (loadCsvIds (Engine.init ["RPG"]) "data/Batch_2.csv").1 (.response false none))
        [.load "data/Batch_3.csv"])
      (loadCsvIds (Engine.init ["RPG"]) "data/Batch_2.csv").1 = some [] ∧
    (run (settle (loadCsvIds (Engine.init ["RPG"]) "data/Batch_2.csv").2
      (loadCsvIds (Engine.init ["RPG"]) "data/Batch_2.csv").1 (.response false none))
        [.load "data/Batch_3.csv"]).fetchLog.count "data/Batch_2.csv" =
      (Engine.init ["RPG"]).fetchLog.count "data/Batch_2.csv" + 1 :=
  loadCsvIds_failure_cached (Engine.init ["RPG"]) "data/Batch_2.csv" (.response false none)
    (by decide) (by decide) [.load "data/Batch_3.csv"]

/-! ## Tag filtering -/

lemma tagSetOf_of_not_shadowed {idx : JsObject Int} {tag : String} (h : ¬ shadowed idx tag) :
    tagSetOf idx tag = .ok ((idx.lookup tag).getD []) := by
  unfold tagSetOf getProp
  cases hl : idx.lookup tag with
  | some xs => rfl
  | none =>
    have hn : tag ∉ objectPrototypeKeys := fun hm => h ⟨hl, hm⟩
    simp [hn]

lemma tagSetOf_of_shadowed {idx : JsObject Int} {tag : String} (h : shadowed idx tag) :
    tagSetOf idx tag = .error .typeError := by
  unfold tagSetOf getProp
  simp [h.1, h.2]

lemma tagSetsOf_of_safe {idx : JsObject Int} :
    ∀ {tags : List String}, (∀ t ∈ tags, ¬ shadowed idx t) →
      tagSetsOf idx tags = .ok (tags.map (fun t => (idx.lookup t).getD [])) := by
  intro tags
  induction tags with
  | nil => intro _; rfl
  | cons t rest ih =>
    intro h
    have h1 := tagSetOf_of_not_shadowed (h t (List.mem_cons_self _ _))
    have h2 := ih (fun u hu => h u (List.mem_cons_of_mem _ hu))
    simp [tagSetsOf, h1, h2]

lemma safe_of_tagSetsOf_ok {idx : JsObject Int} :
    ∀ {tags : List String} {ss : List (List Int)}, tagSetsOf idx tags = .ok ss →
      ∀ t ∈ tags, ¬ shadowed idx t := by
  intro tags
  induction tags with
  | nil => intro _ _ t ht; cases ht
  | cons t rest ih =>
    intro ss h u hu
    by_cases hs : shadowed idx t
    · simp [tagSetsOf, tagSetOf_of_shadowed hs] at h
    · rw [tagSetsOf, tagSetOf_of_not_shadowed hs] at h
      simp only at h
      cases hr : tagSetsOf idx rest with
      | error e => simp [hr] at h
      | ok ss2 =>
        rcases List.mem_cons.mp hu with rfl | hu2
        · exact hs
        · exact ih hr u hu2

lemma not_shadowed_of_empty {idx : JsObject Int} {tag : String}
    (h : ¬ shadowed ([] : JsObject Int) tag) : ¬ shadowed idx tag :=
  fun hs => h ⟨rfl, hs.2⟩

lemma filter_all_contains (idx : JsObject Int) (tags : List String) (ids : List Int) :
    ids.filter (fun appId =>
        (tags.map (fun t => (idx.lookup t).getD [])).all (fun tagSet => tagSet.contains appId))
      = ids.filter (hasAllTags idx tags) := by
  congr 1
  funext a
  induction tags with
  | nil => rfl
  | cons t rest ih =>
    simp only [hasAllTags, List.map, List.all_cons] at ih ⊢
    rw [ih]

lemma filterByTags_of_no_tags {w : World} {st : Engine} (ids : List Int)
    (h : st.SELECTED_TAGS = []) : filterByTags w st ids = .ok (ids, st) := by
  simp [filterByTags, h]

lemma filterByTags_of_safe {w : World} {st : Engine} (ids : List Int)
    (hne : st.SELECTED_TAGS ≠ [])
    (h : ∀ t ∈ st.SELECTED_TAGS, ¬ shadowed (loadTagsIndex w st).1 t) :
    filterByTags w st ids =
      .ok (ids.filter (hasAllTags (loadTagsIndex w st).1 st.SELECTED_TAGS),
           (loadTagsIndex w st).2) := by
  have hlen : st.SELECTED_TAGS.length ≠ 0 := by
    simpa [List.length_eq_zero] using hne
  unfold filterByTags
  rw [if_neg hlen]
  simp only [tagSetsOf_of_safe h, List.length_map]
  rw [if_neg hlen, filter_all_contains]

lemma filterByTags_of_shadowed {w : World} {st : Engine} (ids : List Int) {t : String}
    (ht : t ∈ st.SELECTED_TAGS) (h : shadowed (loadTagsIndex w st).1 t) :
    filterByTags w st ids = .error .typeError := by
  have hlen : st.SELECTED_TAGS.length ≠ 0 := by
    intro h0
    rw [List.length_eq_zero] at h0
    rw [h0] at ht
    cases ht
  unfold filterByTags
  rw [if_neg hlen]
  cases hr : tagSetsOf (loadTagsIndex w st).1 st.SELECTED_TAGS with
  | error e =>
    cases e
    simp only [hr]
  | ok ss => exact absurd h (safe_of_tagSetsOf_ok hr t ht)

/-! ## Selection strategies -/

lemma loadCsvIds_keeps_tags (st : Engine) (path : String) :
    (loadCsvIds st path).2.SELECTED_TAGS = st.SELECTED_TAGS ∧
    (loadCsvIds st path).2.TAGS_INDEX = st.TAGS_INDEX := by
  unfold loadCsvIds
  split <;> exact ⟨rfl, rfl⟩

lemma settle_keeps_tags (st : Engine) (p : Nat) (o : FetchOutcome) :
    (settle st p o).SELECTED_TAGS = st.SELECTED_TAGS ∧
    (settle st p o).TAGS_INDEX = st.TAGS_INDEX := by
  unfold settle
  split <;> exact ⟨rfl, rfl⟩

lemma awaitCsvIds_keeps_tags (w : World) (st : Engine) (path : String) :
    (awaitCsvIds w st path).2.SELECTED_TAGS = st.SELECTED_TAGS ∧
    (awaitCsvIds w st path).2.TAGS_INDEX = st.TAGS_INDEX := by
  have h1 := loadCsvIds_keeps_tags st path
  unfold awaitCsvIds
  simp only
  split
  · exact h1
  · have h2 := settle_keeps_tags (loadCsvIds st path).2 (loadCsvIds st path).1 (w.fetchCsv path)
    exact ⟨h2.1.trans h1.1, h2.2.trans h1.2⟩

lemma loadTagsIndex_of_cached {w : World} {st : Engine} {idx : JsObject Int}
    (h : st.TAGS_INDEX = some idx) : loadTagsIndex w st = (idx, st) := by
  simp [loadTagsIndex, h]

/-- Once `filterByTags` has returned, no selected tag is shadowed in any later state
with the same selected tags and the same cached index. -/
lemma safe_after_filterByTags {w : World} {st st2 : Engine} {ids out : List Int}
    (h : filterByTags w st ids = .ok (out, st2)) :
    st2.SELECTED_TAGS = st.SELECTED_TAGS ∧
    ∀ st3 : Engine, st3.SELECTED_TAGS = st2.SELECTED_TAGS → st3.TAGS_INDEX = st2.TAGS_INDEX →
      ∀ t ∈ st3.SELECTED_TAGS, ¬ shadowed (loadTagsIndex w st3).1 t := by
  by_cases hS : st.SELECTED_TAGS = []
  · rw [filterByTags_of_no_tags ids hS] at h
    cases h
    refine ⟨rfl, ?_⟩
    intro st3 h3 _ t ht
    rw [h3, hS] at ht
    cases ht
  · have hlen : st.SELECTED_TAGS.length ≠ 0 := by
      simpa [List.length_eq_zero] using hS
    unfold filterByTags at h
    rw [if_neg hlen] at h
    simp only at h
    cases hr : tagSetsOf (loadTagsIndex w st).1 st.SELECTED_TAGS with
    | error e => simp [hr] at h
    | ok ss =>
      have hsafe := safe_of_tagSetsOf_ok hr
      have hst2 : st2 = (loadTagsIndex w st).2 := by
        rw [hr] at h
        simp only at h
        split at h <;> · cases h; rfl
      have hsel : st2.SELECTED_TAGS = st.SELECTED_TAGS := by
        rw [hst2]
        unfold loadTagsIndex
        split
        · rfl
        · split <;> rfl
      refine ⟨hsel, ?_⟩
      intro st3 h3 hidx t ht
      rw [h3, hsel] at ht
      have hs := hsafe t ht
      cases hc : st.TAGS_INDEX with
      | some idx =>
        rw [loadTagsIndex_of_cached hc] at hs hst2
        have : st3.TAGS_INDEX = some idx := by rw [hidx, hst2]; exact hc
        rw [loadTagsIndex_of_cached this]
        exact hs
      | none =>
        cases hf : w.fetchTags st.tagFetches with
        | some idx =>
          have hl : loadTagsIndex w st =
              (idx, { st with TAGS_INDEX := some idx, tagFetches := st.tagFetches + 1 }) := by
            simp [loadTagsIndex, hc, hf]
          rw [hl] at hs hst2
          have : st3.TAGS_INDEX = some idx := by rw [hidx, hst2]
          rw [loadTagsIndex_of_cached this]
          exact hs
        | none =>
          have hl : loadTagsIndex w st = ([], { st with tagFetches := st.tagFetches + 1 }) := by
            simp [loadTagsIndex, hc, hf]
          rw [hl] at hs
          exact not_shadowed_of_empty hs

lemma filterByTags_ok_of_safe (w : World) (st : Engine) (ids : List Int)
    (h : ∀ t ∈ st.SELECTED_TAGS, ¬ shadowed (loadTagsIndex w st).1 t) :
    ∃ out st2, filterByTags w st ids = .ok (out, st2) := by
  by_cases hS : st.SELECTED_TAGS = []
  · exact ⟨_, _, filterByTags_of_no_tags ids hS⟩
  · exact ⟨_, _, filterByTags_of_safe ids hS h⟩


lemma drawRandomId_mem (w : World) (st : Engine) (ids : List Int)
    (hr : ∀ k, (w.random k).valid) (hne : ids ≠ []) (hlen : ids.length < 2 ^ 53) :
    ∃ x, (drawRandomId w st ids).1 = .id x ∧ x ∈ ids := by
  have hlen0 : ids.length ≠ 0 := by simpa [List.length_eq_zero] using hne
  unfold drawRandomId
  rw [if_neg hlen0]
  exact pickRandomIdF64_mem ids _ (hr st.randomCalls) hne hlen

/-- Off the inherited names the fallback works: when `filterByTags` returns the empty
list for the chosen batch, `getSmartRandomAppId` continues as `getPureRandomAppId` in
the state reached, whose own filtering returns, and the pick is taken from the filtered
catalog when that is non-empty and from the unfiltered catalog otherwise. -/
lemma getSmartRandomAppId_of_empty_filtered (w : World) (st st2 : Engine)
    (hempty :
      filterByTags w (awaitCsvIds w (nextRandom w st).2 (batchFileAt (nextRandom w st).1)).2
        (awaitCsvIds w (nextRandom w st).2 (batchFileAt (nextRandom w st).1)).1 = .ok ([], st2)) :
    getSmartRandomAppId w st = getPureRandomAppId w st2 ∧
    ∃ filtered st3,
      filterByTags w (getReleasedAppIds w st2).2 (getReleasedAppIds w st2).1
        = .ok (filtered, st3) ∧
      getSmartRandomAppId w st =
        .ok (drawRandomId w st3
              (if filtered.length = 0 then (getReleasedAppIds w st2).1 else filtered)) ∧
      ((∀ k, (w.random k).valid) → (getReleasedAppIds w st2).1 ≠ [] →
        (getReleasedAppIds w st2).1.length < 2 ^ 53 →
        ∃ x, (drawRandomId w st3
                (if filtered.length = 0 then (getReleasedAppIds w st2).1 else filtered)).1
              = .id x ∧
          x ∈ (if filtered.length = 0 then (getReleasedAppIds w st2).1 else filtered)) := by
  have hfall : getSmartRandomAppId w st = getPureRandomAppId w st2 := by
    unfold getSmartRandomAppId
    rw [if_neg (by decide)]
    simp only [hempty]
    rfl
  have hsafe := safe_after_filterByTags hempty
  have hkeep := awaitCsvIds_keeps_tags w st2 releasedPath
  obtain ⟨filtered, st3, hf⟩ :=
    filterByTags_ok_of_safe w (getReleasedAppIds w st2).2
      (getReleasedAppIds w st2).1 (hsafe.2 _ hkeep.1 hkeep.2)
  have hpure : getPureRandomAppId w st2 =
      .ok (drawRandomId w st3
            (if filtered.length = 0 then (getReleasedAppIds w st2).1 else filtered)) := by
    unfold getPureRandomAppId
    simp only [hf]
    split <;> rfl
  refine ⟨hfall, filtered, st3, hf, hfall.trans hpure, ?_⟩
  intro hr hcat hbound
  have hsub : filtered.length ≤ (getReleasedAppIds w st2).1.length := by
    by_cases hS : (getReleasedAppIds w st2).2.SELECTED_TAGS = []
    · rw [filterByTags_of_no_tags _ hS] at hf
      cases hf
      exact le_refl _
    · rw [filterByTags_of_safe _ hS (hsafe.2 _ hkeep.1 hkeep.2)] at hf
      cases hf
      exact List.length_filter_le _ _
  by_cases hz : filtered.length = 0
  · rw [if_pos hz]
    exact drawRandomId_mem w st3 _ hr hcat hbound
  · rw [if_neg hz]
    refine drawRandomId_mem w st3 _ hr ?_ (lt_of_le_of_lt hsub hbound)
    intro h
    exact hz (by rw [h]; rfl)

/-- C3 (failing input): every batch fetch rejects, the catalog is [10, 20, 30] and the
selected tag is "constructor". The chosen batch yields no id, but filtering that empty
list already throws a `TypeError` (the lookup finds the member inherited from
`Object.prototype`), so `getSmartRandomAppId` rejects: it does not fall back to
`getPureRandomAppId` and returns no id although the catalog is not empty. -/
theorem getSmartRandomAppId_inherited_tag_throws :
    (awaitCsvIds demoWorld (nextRandom demoWorld (Engine.init ["constructor"])).2
      "data/Batch_1.csv").1 = [] ∧
    batchFileAt (nextRandom demoWorld (Engine.init ["constructor"])).1 = "data/Batch_1.csv" ∧
    (getReleasedAppIds demoWorld (Engine.init ["constructor"])).1 = [10, 20, 30] ∧
    getSmartRandomAppId demoWorld (Engine.init ["constructor"]) = .error .typeError := by
  exact ⟨rfl, rfl, rfl, rfl⟩

/-- C1 (failing input): with index {A:[1,2], B:[2,3]} and ids [1,2,3], the fixture
{A,B} gives [2] and the empty tag set gives the ids back, but adding the unknown tag
"valueOf" makes `filterByTags` throw a `TypeError` instead of returning the empty
sequence: the lookup finds the member inherited from `Object.prototype`. -/
theorem filterByTags_inherited_tag_throws :
    filterByTags offlineWorld (Engine.withIndex [("A", [1, 2]), ("B", [2, 3])] ["A", "B", "valueOf"])
      [1, 2, 3] = .error .typeError ∧
    filterByTags offlineWorld (Engine.withIndex [("A", [1, 2]), ("B", [2, 3])] ["A", "B"])
      [1, 2, 3] = .ok ([2], Engine.withIndex [("A", [1, 2]), ("B", [2, 3])] ["A", "B"]) ∧
    filterByTags offlineWorld (Engine.withIndex [("A", [1, 2]), ("B", [2, 3])] [])
      [1, 2, 3] = .ok ([1, 2, 3], Engine.withIndex [("A", [1, 2]), ("B", [2, 3])] []) :=
  ⟨rfl, rfl, rfl⟩

/-- C2 (failing input): the catalog snapshot is [10, 20, 30] and the index loads, but
with the selected tag "hasOwnProperty" `getPureRandomAppId` ends in a `TypeError`
thrown by `filterByTags`; the unfiltered fallback is never reached. -/
theorem getPureRandomAppId_inherited_tag_throws :
    (getReleasedAppIds demoWorld (Engine.init ["hasOwnProperty"])).1 = [10, 20, 30] ∧
    getPureRandomAppId demoWorld (Engine.init ["hasOwnProperty"]) = .error .typeError :=
  ⟨rfl, rfl⟩

/-- C7 (failing input): when the index failed to load (the empty mapping), each of the
selected tags "constructor", "toString" and "__proto__" makes `filterByTags` throw a
`TypeError`, whatever the id sequence; a tag that is not a member of
`Object.prototype` resolves to the empty set. -/
theorem filterByTags_unknown_tag_throws :
    filterByTags offlineWorld (Engine.init ["constructor"]) [1] = .error .typeError ∧
    filterByTags offlineWorld (Engine.init ["toString"]) [1] = .error .typeError ∧
    filterByTags offlineWorld (Engine.init ["__proto__"]) [] = .error .typeError ∧
    (filterByTags offlineWorld (Engine.init ["Action"]) [1]).map Prod.fst = .ok [] :=
  ⟨rfl, rfl, rfl, rfl⟩

/-! ## Index builder -/

/-- C8 (failing input): a catalog whose only item carries the tag "constructor": the
data handler throws a `TypeError` at the `push` (the bucket test finds the inherited
member, so no bucket is created), and no index is produced. -/
theorem build_inherited_tag_throws :
    consume Builder.init [("10", { tags := some ["constructor"] })] = .error .typeError ∧
    build [("10", { tags := some ["constructor"] })] = .error .typeError :=
  ⟨rfl, rfl⟩

lemma lookup_snoc_self {β : Type} (l : List (String × β)) (k : String) (v : β)
    (h : l.lookup k = none) : (l ++ [(k, v)]).lookup k = some v := by
  induction l with
  | nil => simp [List.lookup]
  | cons hd tl ih =>
    obtain ⟨k1, v1⟩ := hd
    simp only [List.cons_append, List.lookup_cons] at h ⊢
    cases hk : (k == k1) with
    | true => simp [hk] at h
    | false =>
      rw [hk] at h
      simpa using ih h

lemma pushBucket_ensureBucket_ok (idx : JsObject JsNum) (t : String) (n : JsNum)
    (ht : t ∉ objectPrototypeKeys) :
    ∃ idx2, pushBucket (ensureBucket idx t) t n = .ok idx2 := by
  cases hl : idx.lookup t with
  | some xs =>
    refine ⟨setOwn idx t (xs ++ [n]), ?_⟩
    simp [pushBucket, ensureBucket, getProp, hl]
  | none =>
    have h2 : (idx ++ [(t, ([] : List JsNum))]).lookup t = some [] := lookup_snoc_self idx t [] hl
    refine ⟨setOwn (idx ++ [(t, [])]) t ([] ++ [n]), ?_⟩
    simp [pushBucket, ensureBucket, getProp, hl, ht, setOwn, h2]

lemma indexTags_ok (n : JsNum) :
    ∀ (tags : List String) (idx : JsObject JsNum), (∀ t ∈ tags, t ∉ objectPrototypeKeys) →
      ∃ idx2, indexTags n idx tags = .ok idx2 := by
  intro tags
  induction tags with
  | nil => intro idx _; exact ⟨idx, rfl⟩
  | cons t rest ih =>
    intro idx h
    obtain ⟨idx1, h1⟩ := pushBucket_ensureBucket_ok idx t n (h t (List.mem_cons_self _ _))
    obtain ⟨idx2, h2⟩ := ih idx1 (fun u hu => h u (List.mem_cons_of_mem _ hu))
    exact ⟨idx2, by simp [indexTags, h1, h2]⟩

lemma consume_ok :
    ∀ (stream : List (String × Game)) (b : Builder),
      (∀ kv ∈ stream, ∀ t ∈ kv.2.tags.getD [], t ∉ objectPrototypeKeys) →
      ∃ b2, consume b stream = .ok b2 ∧
        b2.allAppIds = b.allAppIds ++ stream.map (fun kv => parseInt kv.1) := by
  intro stream
  induction stream with
  | nil => intro b _; exact ⟨b, rfl, by simp⟩
  | cons kv rest ih =>
    intro b h
    obtain ⟨idx, hidx⟩ := indexTags_ok (parseInt kv.1) (kv.2.tags.getD []) b.tagIndex
      (h kv (List.mem_cons_self _ _))
    obtain ⟨b2, hb2, hids⟩ :=
      ih { tagIndex := idx, allAppIds := b.allAppIds ++ [parseInt kv.1],
           gameCount := b.gameCount + 1 }
        (fun kv2 hkv2 => h kv2 (List.mem_cons_of_mem _ hkv2))
    refine ⟨b2, ?_, ?_⟩
    · simp [consume, onData, hidx, hb2]
    · rw [hids]
      simp

lemma roundSignificand_pos {n : Nat} (h : 1 ≤ n) : 1 ≤ roundSignificand n :=
  roundSignificand_ge_of_representable ⟨1, 0, by norm_num, by simp⟩ h

lemma roundSignificand_zero : roundSignificand 0 = 0 :=
  roundSignificand_of_lt (by positivity)

/-- Rounding an integer to binary64 keeps its sign. -/
lemma ofInt_sign (z : Int) :
    (match JsNum.ofInt z with
      | .nan => (0 : Int)
      | .num v => v
      | .posInf => 1
      | .negInf => -1) ≤ 0 ↔ z ≤ 0 := by
  have hz : z.natAbs = 0 ↔ z = 0 := Int.natAbs_eq_zero
  unfold JsNum.ofInt
  by_cases hover : 2 ^ 1024 ≤ roundSignificand z.natAbs
  · rw [if_pos hover]
    by_cases hs : 0 ≤ z
    · rw [if_pos hs]
      have hne : z ≠ 0 := by
        intro he
        rw [hz.mpr he, roundSignificand_zero] at hover
        exact absurd hover (by norm_num)
      simp only
      constructor
      · intro h; omega
      · intro h; omega
    · rw [if_neg hs]
      simp only
      constructor
      · intro _; omega
      · intro _; omega
  · rw [if_neg hover]
    by_cases hs : 0 ≤ z
    · rw [if_pos hs]
      simp only
      constructor
      · intro h
        by_contra hlt
        have h1 : 1 ≤ z.natAbs := by
          rcases Nat.eq_zero_or_pos z.natAbs with h2 | h2
          · exact absurd (hz.mp h2) (by omega)
          · exact h2
        have := roundSignificand_pos h1
        omega
      · intro h
        have he : z = 0 := by omega
        rw [hz.mpr he, roundSignificand_zero]
        simp
    · rw [if_neg hs]
      simp only
      constructor
      · intro _; omega
      · intro _
        exact neg_nonpos.mpr (Int.ofNat_nonneg _)

set_option exponentiation.threshold 1100 in
/-- The comparator orders two integer-valued numbers as the integers: the rounding of
the difference keeps its sign. -/
lemma sortCompare_num_num (a b : Int) : sortCompare (.num a) (.num b) ≤ 0 ↔ a ≤ b := by
  have h := ofInt_sign (a - b)
  have hsub : sortCompare (.num a) (.num b) =
      (match JsNum.ofInt (a - b) with
        | .nan => (0 : Int)
        | .num v => v
        | .posInf => 1
        | .negInf => -1) := rfl
  rw [hsub, h]
  omega

lemma sortCompare_iff_le {a b : JsNum} (ha : a ≠ .nan) (hb : b ≠ .nan) :
    sortCompare a b ≤ 0 ↔ JsNum.le a b := by
  cases a with
  | nan => exact absurd rfl ha
  | num x =>
    cases b with
    | nan => exact absurd rfl hb
    | num y => rw [sortCompare_num_num]; rfl
    | posInf => simp [sortCompare, compareFn, JsNum.sub, JsNum.le]
    | negInf => simp [sortCompare, compareFn, JsNum.sub, JsNum.le]
  | posInf =>
    cases b with
    | nan => exact absurd rfl hb
    | num y => simp [sortCompare, compareFn, JsNum.sub, JsNum.le]
    | posInf => simp [sortCompare, compareFn, JsNum.sub, JsNum.le]
    | negInf => simp [sortCompare, compareFn, JsNum.sub, JsNum.le]
  | negInf =>
    cases b with
    | nan => exact absurd rfl hb
    | num y => simp [sortCompare, compareFn, JsNum.sub, JsNum.le]
    | posInf => simp [sortCompare, compareFn, JsNum.sub, JsNum.le]
    | negInf => simp [sortCompare, compareFn, JsNum.sub, JsNum.le]

lemma JsNum.le_total {a b : JsNum} (ha : a ≠ .nan) (hb : b ≠ .nan) :
    JsNum.le a b ∨ JsNum.le b a := by
  cases a <;> cases b <;> simp [JsNum.le] at *
  omega

lemma JsNum.le_trans {a b c : JsNum} (h1 : JsNum.le a b) (h2 : JsNum.le b c) :
    JsNum.le a c := by
  cases a <;> cases b <;> cases c <;> simp [JsNum.le] at *
  omega

lemma orderedInsert_sorted_le (a : JsNum) (ha : a ≠ .nan) :
    ∀ l : List JsNum, (∀ x ∈ l, x ≠ .nan) → l.Sorted JsNum.le →
      (l.orderedInsert (fun a b => sortCompare a b ≤ 0) a).Sorted JsNum.le := by
  intro l
  induction l with
  | nil => intro _ _; simp
  | cons b l ih =>
    intro hl hs
    have hb : b ≠ .nan := hl b (List.mem_cons_self _ _)
    have hl2 : ∀ x ∈ l, x ≠ .nan := fun x hx => hl x (List.mem_cons_of_mem _ hx)
    rw [List.orderedInsert]
    by_cases hab : sortCompare a b ≤ 0
    · rw [if_pos hab]
      have hle := (sortCompare_iff_le ha hb).mp hab
      rw [List.Sorted, List.pairwise_cons]
      refine ⟨?_, hs⟩
      intro x hx
      rcases List.mem_cons.mp hx with rfl | hx2
      · exact hle
      · exact JsNum.le_trans hle (List.rel_of_sorted_cons hs x hx2)
    · rw [if_neg hab]
      have hba : JsNum.le b a := by
        rcases JsNum.le_total ha hb with h | h
        · exact absurd ((sortCompare_iff_le ha hb).mpr h) hab
        · exact h
      have hrest := ih hl2 (List.pairwise_cons.mp hs).2
      rw [List.Sorted, List.pairwise_cons]
      refine ⟨?_, hrest⟩
      intro x hx
      rcases (List.mem_orderedInsert _).mp hx with rfl | hx2
      · exact hba
      · exact List.rel_of_sorted_cons hs x hx2

lemma insertionSort_sorted_le :
    ∀ l : List JsNum, (∀ x ∈ l, x ≠ .nan) →
      (l.insertionSort (fun a b => sortCompare a b ≤ 0)).Sorted JsNum.le := by
  intro l
  induction l with
  | nil => intro _; simp
  | cons a l ih =>
    intro hl
    rw [List.insertionSort]
    apply orderedInsert_sorted_le a (hl a (List.mem_cons_self _ _))
    · intro x hx
      exact hl x (List.mem_cons_of_mem _ ((List.mem_insertionSort _).mp hx))
    · exact ih (fun x hx => hl x (List.mem_cons_of_mem _ hx))

/-- Without a `NaN` the sort returns an ascending permutation of the array. -/
lemma sortAppIds_sorted_perm (xs : List JsNum) (h : ∀ x ∈ xs, x ≠ .nan) :
    ∃ sorted, sortAppIds xs = some sorted ∧ sorted.Sorted JsNum.le ∧ sorted.Perm xs := by
  have hmem : JsNum.nan ∉ xs := fun hm => h _ hm rfl
  refine ⟨xs.insertionSort (fun a b => sortCompare a b ≤ 0), ?_, insertionSort_sorted_le xs h,
    List.perm_insertionSort _ xs⟩
  unfold sortAppIds
  rw [if_neg hmem]

/-- Off the inherited names and with keys that parse to numbers, the builder completes
and the id list it serialises is in ascending numeric order, is a permutation of the
parsed ids of the stream and has one entry per catalog entry. -/
lemma build_releasedAppIds_sorted_perm (stream : List (String × Game))
    (htags : ∀ kv ∈ stream, ∀ t ∈ kv.2.tags.getD [], t ∉ objectPrototypeKeys)
    (hkeys : ∀ kv ∈ stream, parseInt kv.1 ≠ .nan) :
    ∃ out sorted, build stream = .ok out ∧ out.releasedAppIds = some sorted ∧
      sorted.Sorted JsNum.le ∧
      sorted.Perm (stream.map (fun kv => parseInt kv.1)) ∧
      sorted.length = stream.length := by
  obtain ⟨b, hb, hids⟩ := consume_ok stream Builder.init htags
  have hall : b.allAppIds = stream.map (fun kv => parseInt kv.1) := by
    rw [hids]
    rfl
  have hnn : ∀ x ∈ b.allAppIds, x ≠ .nan := by
    intro x hx
    rw [hall] at hx
    obtain ⟨kv, hkv, rfl⟩ := List.mem_map.mp hx
    exact hkeys kv hkv
  obtain ⟨sorted, hsort, hsorted, hperm⟩ := sortAppIds_sorted_perm b.allAppIds hnn
  refine ⟨{ tagsIndex := b.tagIndex, releasedAppIds := sortAppIds b.allAppIds }, sorted,
    ?_, hsort, hsorted, ?_, ?_⟩
  · simp [build, hb]
  · rw [← hall]
    exact hperm
  · rw [hperm.length_eq, hall, List.length_map]

set_option exponentiation.threshold 1100 in
/-- C9 (failing input): a catalog of two entries with ids 20 and 10, the second one
tagged "toString". The claim has the list 10, 20 serialised, one line per entry; the
data handler throws a `TypeError` at the second entry, the end handler never runs and
no id list is written. Without that tag the list written is 10, 20. -/
theorem build_inherited_tag_writes_no_ids :
    parseInt "20" = .num 20 ∧ parseInt "10" = .num 10 ∧
    build [("20", { tags := some ["Indie"] }), ("10", { tags := some ["toString"] })]
      = .error .typeError ∧
    build [("20", { tags := some ["Indie"] }), ("10", { tags := none })]
      = .ok { tagsIndex := [("Indie", [.num 20])],
              releasedAppIds := some [.num 10, .num 20] } :=
  ⟨rfl, rfl, rfl, rfl⟩

lemma lookup_snoc_other {β : Type} (l : List (String × β)) (k t : String) (v : β)
    (h : t ≠ k) : (l ++ [(k, v)]).lookup t = l.lookup t := by
  induction l with
  | nil =>
    have hb : (t == k) = false := by simpa using h
    simp [List.lookup, hb]
  | cons hd tl ih =>
    obtain ⟨k1, v1⟩ := hd
    simp only [List.cons_append, List.lookup_cons]
    cases hk : (t == k1) with
    | true => rfl
    | false => simpa using ih

lemma lookup_map_replace {β : Type} (l : List (String × β)) (k t : String) (v : β) :
    (l.map (fun kv => if kv.1 = k then (kv.1, v) else kv)).lookup t =
      if t = k then (l.lookup t).map (fun _ => v) else l.lookup t := by
  induction l with
  | nil => simp
  | cons hd tl ih =>
    obtain ⟨k1, v1⟩ := hd
    by_cases h1 : k1 = k
    · by_cases h2 : t = k
      · subst h1
        subst h2
        simp [List.lookup_cons]
      · have h3 : (t == k1) = false := by
          rw [h1]
          simpa using h2
        simp only [List.map_cons, h1, if_true, List.lookup_cons]
        rw [← h1] at ih ⊢
        simp only [h3]
        rw [h1] at ih ⊢
        simpa [h2] using ih
    · simp only [List.map_cons, h1, if_false, List.lookup_cons]
      cases hk : (t == k1) with
      | true =>
        have : t = k1 := by simpa using hk
        have h2 : t ≠ k := by rw [this]; exact h1
        simp [h2]
      | false => simpa using ih

lemma bucket_setOwn (idx : JsObject JsNum) (k t : String) (v : List JsNum) :
    bucket (setOwn idx k v) t = if t = k then v else bucket idx t := by
  unfold bucket setOwn
  cases hl : idx.lookup k with
  | some xs =>
    simp only [lookup_map_replace]
    by_cases h : t = k
    · subst h
      simp [hl]
    · simp [h]
  | none =>
    simp only
    by_cases h : t = k
    · subst h
      simp [lookup_snoc_self idx t v hl]
    · simp [h, lookup_snoc_other idx k t v h]

lemma pushBucket_ensureBucket_bucket (idx : JsObject JsNum) (k : String) (n : JsNum)
    (hk : k ∉ objectPrototypeKeys) :
    ∃ idx2, pushBucket (ensureBucket idx k) k n = .ok idx2 ∧
      ∀ t, bucket idx2 t = if t = k then bucket idx k ++ [n] else bucket idx t := by
  cases hl : idx.lookup k with
  | some xs =>
    refine ⟨setOwn idx k (xs ++ [n]), by simp [pushBucket, ensureBucket, getProp, hl], ?_⟩
    intro t
    rw [bucket_setOwn]
    simp [bucket, hl]
  | none =>
    have h2 : (idx ++ [(k, ([] : List JsNum))]).lookup k = some [] := lookup_snoc_self idx k [] hl
    refine ⟨setOwn (idx ++ [(k, [])]) k ([] ++ [n]),
      by simp [pushBucket, ensureBucket, getProp, hl, hk, setOwn, h2], ?_⟩
    intro t
    rw [bucket_setOwn]
    by_cases h : t = k
    · subst h
      simp [bucket, hl]
    · simp [h, bucket, lookup_snoc_other idx k t [] h]

lemma indexTags_bucket (n : JsNum) :
    ∀ (tags : List String) (idx : JsObject JsNum), tags.Nodup →
      (∀ t ∈ tags, t ∉ objectPrototypeKeys) →
      ∃ idx2, indexTags n idx tags = .ok idx2 ∧
        ∀ t, bucket idx2 t = bucket idx t ++ (if t ∈ tags then [n] else []) := by
  intro tags
  induction tags with
  | nil => intro idx _ _; exact ⟨idx, rfl, by simp⟩
  | cons k rest ih =>
    intro idx hnd h
    obtain ⟨idx1, h1, hb1⟩ :=
      pushBucket_ensureBucket_bucket idx k n (h k (List.mem_cons_self _ _))
    obtain ⟨idx2, h2, hb2⟩ := ih idx1 (List.nodup_cons.mp hnd).2
      (fun u hu => h u (List.mem_cons_of_mem _ hu))
    refine ⟨idx2, by simp [indexTags, h1, h2], ?_⟩
    intro t
    rw [hb2, hb1]
    by_cases htk : t = k
    · subst htk
      have : t ∉ rest := (List.nodup_cons.mp hnd).1
      simp [this]
    · simp [htk]

/-- Off the names inherited from `Object.prototype` the builder completes, and the own
bucket of every tag lists, in stream order and once per occurrence, the parsed ids of
the items that carry the tag. -/
lemma consume_bucket :
    ∀ (stream : List (String × Game)) (b : Builder),
      (∀ kv ∈ stream, (kv.2.tags.getD []).Nodup) →
      (∀ kv ∈ stream, ∀ t ∈ kv.2.tags.getD [], t ∉ objectPrototypeKeys) →
      ∃ b2, consume b stream = .ok b2 ∧
        ∀ t, bucket b2.tagIndex t = bucket b.tagIndex t ++
          (stream.filter (fun kv => decide (t ∈ kv.2.tags.getD []))).map
            (fun kv => parseInt kv.1) := by
  intro stream
  induction stream with
  | nil => intro b _ _; exact ⟨b, rfl, by simp⟩
  | cons kv rest ih =>
    intro b hnd h
    obtain ⟨idx, hidx, hbk⟩ := indexTags_bucket (parseInt kv.1) (kv.2.tags.getD []) b.tagIndex
      (hnd kv (List.mem_cons_self _ _)) (h kv (List.mem_cons_self _ _))
    obtain ⟨b2, hb2, hbk2⟩ :=
      ih { tagIndex := idx, allAppIds := b.allAppIds ++ [parseInt kv.1],
           gameCount := b.gameCount + 1 }
        (fun kv2 hkv2 => hnd kv2 (List.mem_cons_of_mem _ hkv2))
        (fun kv2 hkv2 => h kv2 (List.mem_cons_of_mem _ hkv2))
    refine ⟨b2, by simp [consume, onData, hidx, hb2], ?_⟩
    intro t
    rw [hbk2]
    simp only [hbk]
    by_cases ht : t ∈ kv.2.tags.getD []
    · simp [List.filter_cons, ht]
    · simp [List.filter_cons, ht]

end ReviewGuesser
